import Mathlib

/-
  Verification development for the jsonapi-data-manager store
  (src/index.js: classes Model and Store).

  Embedding notes:
  * JS objects are mutable and shared by reference; we model the object
    heap explicitly: a Model pointer is an index into `Store.heap`, and
    allocation appends to the heap.
  * JS `undefined` string values are modelled with `Option String`
    (`Key`): a missing `id`/`type` is `none`.
  * JS string-keyed objects are modelled as insertion-ordered
    association lists (`lookupA` / `insertA` / `eraseA`).  The JS quirk
    that `obj[undefined]` coerces to the string key "undefined" is not
    modelled (a `none` key is its own key); no claim depends on it.
  * Thrown TypeErrors are modelled by `Option`/`none` results.
  * Attribute values are modelled by the scalar `JsonVal`; JSON
    documents contain no `undefined` values, and both serialize and
    sync copy attribute values opaquely, so the exact value universe is
    irrelevant to the claims.
  * `Array.prototype.forEach` combined with `splice` inside the
    callback skips the element that shifts into a removed slot; this is
    modelled exactly by `jsSpliceRemove`.
  * `list.splice(list.indexOf(x), 1)` removes the first occurrence of
    `x`, and removes the LAST element when `x` is absent
    (`splice(-1, 1)`); modelled by `jsRemoveAtIndexOf`.
-/

abbrev Key := Option String

inductive JsonVal where
  | jnull : JsonVal
  | jbool : Bool → JsonVal
  | jnum : Int → JsonVal
  | jstr : String → JsonVal
deriving DecidableEq, Repr

abbrev JsonObj := List (String × JsonVal)

/-- Reverse-dependency triple pushed by `Model._addDependence`:
`{ id, type, relation }` of the model that holds the reference. -/
structure Dep where
  id : Key
  type : Key
  relation : String
deriving DecidableEq, Repr

/-- A dynamic property value of a Model (`model[key]`): JS `null`, a
JSON attribute value, a single Model reference, or an array of Model
references. -/
inductive FieldValue where
  | vnull : FieldValue
  | vjson : JsonVal → FieldValue
  | vref : Nat → FieldValue
  | vlist : List Nat → FieldValue
deriving DecidableEq, Repr

/-- One JSON:API resource-level Model (class `Model` in src/index.js).
The dynamic attribute/relationship properties live in the single
string-keyed map `fields`, mirroring the shared JS property namespace. -/
structure Model where
  id : Key
  type : Key
  attributesList : List String
  dependents : List Dep
  relationshipsList : List String
  links : JsonObj
  relationshipLinks : List (String × JsonObj)
  meta : JsonObj
  relationshipMeta : List (String × JsonObj)
  destroyed : Bool
  placeHolder : Bool
  fields : List (String × FieldValue)
deriving DecidableEq, Repr

/-- `new Model(type, id)`: empty containers, flags cleared. -/
def Model.new (t i : Key) : Model :=
  { id := i, type := t, attributesList := [], dependents := [],
    relationshipsList := [], links := [], relationshipLinks := [],
    meta := [], relationshipMeta := [], destroyed := false,
    placeHolder := false, fields := [] }

instance : Inhabited Model := ⟨Model.new none none⟩

/-- Association-list lookup (JS property read). -/
def lookupA {κ α : Type} [DecidableEq κ] : List (κ × α) → κ → Option α
  | [], _ => none
  | (k', v) :: rest, k => if k' = k then some v else lookupA rest k

/-- Association-list write (JS property assignment): updates in place,
appends a fresh key at the end, preserving JS insertion order. -/
def insertA {κ α : Type} [DecidableEq κ] : List (κ × α) → κ → α → List (κ × α)
  | [], k, v => [(k, v)]
  | (k', v') :: rest, k, v =>
      if k' = k then (k, v) :: rest else (k', v') :: insertA rest k v

/-- Association-list delete (JS `delete obj[k]`). -/
def eraseA {κ α : Type} [DecidableEq κ] : List (κ × α) → κ → List (κ × α)
  | [], _ => []
  | (k', v') :: rest, k => if k' = k then rest else (k', v') :: eraseA rest k

/-- `forEach` + `splice(index, 1)` removal loop, exactly as JS executes
it: after removing a matching element, the element that shifts into its
index is NOT examined (the iteration index still advances). -/
def jsSpliceRemove {α : Type} (q : α → Bool) : List α → List α
  | [] => []
  | a :: rest =>
      if q a then
        match rest with
        | [] => []
        | b :: rest2 => b :: jsSpliceRemove q rest2
      else a :: jsSpliceRemove q rest

/-- `list.indexOf(x)`: index of the first occurrence, `none` for
`-1`. -/
def idxOfA : List Key → Key → Option Nat
  | [], _ => none
  | a :: t, x => if a = x then some 0 else (idxOfA t x).map (· + 1)

/-- `list.splice(list.indexOf(x), 1)`: removes the first occurrence of
`x`; when `x` is absent, `indexOf` yields `-1` and `splice(-1, 1)`
removes the last element. -/
def jsRemoveAtIndexOf (l : List Key) (x : Key) : List Key :=
  match idxOfA l x with
  | some j => l.take j ++ l.drop (j + 1)
  | none => l.take (l.length - 1)

/-- `indexOf` found / `splice` / `push` sequence at the end of
`Store.initModel`: move `x` to the end of the order list, inserting it
when absent. -/
def jsMoveToEnd (l : List Key) (x : Key) : List Key :=
  match idxOfA l x with
  | some j => (l.take j ++ l.drop (j + 1)) ++ [x]
  | none => l ++ [x]

/-- `Model._addDependence(type, id, key)`: push the triple unless an
identical triple is already present. -/
def Model.addDependence (m : Model) (t i : Key) (key : String) : Model :=
  match m.dependents.find? (fun d => d.id == i && d.type == t && d.relation == key) with
  | some _ => m
  | none => { m with dependents := m.dependents ++ [{ id := i, type := t, relation := key }] }

/-- The match test of `Model._removeDependence`:
`value.id === id && value.type === type`. -/
def matchDep (t i : Key) (d : Dep) : Bool := d.id == i && d.type == t

/-- `Model._removeDependence(type, id)`: forEach/splice removal of
matching triples (subject to the JS index-skip). -/
def Model.removeDependence (m : Model) (t i : Key) : Model :=
  { m with dependents := jsSpliceRemove (matchDep t i) m.dependents }

/-- Model heap read (dereference a pointer). -/
def heapGetM (heap : List Model) (p : Nat) : Model :=
  heap.getD p (Model.new none none)

/-- JS truthiness of a dynamic property value (`!this[key]`). -/
def FieldValue.truthy : FieldValue → Bool
  | FieldValue.vnull => false
  | FieldValue.vjson JsonVal.jnull => false
  | FieldValue.vjson (JsonVal.jbool b) => b
  | FieldValue.vjson (JsonVal.jnum n) => n != 0
  | FieldValue.vjson (JsonVal.jstr s) => s != ""
  | FieldValue.vref _ => true
  | FieldValue.vlist _ => true

def fieldTruthy : Option FieldValue → Bool
  | none => false
  | some v => v.truthy

/-- The match test of the array branch of `Model.removeRelationship`:
`value.id === id && value._type === type`. -/
def matchRef (heap : List Model) (t i : Key) (p : Nat) : Bool :=
  (heapGetM heap p).id == i && (heapGetM heap p).type == t

/-- `Model.removeRelationship(type, id, relationshipName)`.  Returns
`none` when the JS code throws: reading `.id` of `null` (a null slot)
or of `undefined` (an absent slot) is a TypeError.  On a single
reference only the `id` is compared (`this[relationshipName].id ===
id`); the array branch compares both `id` and `_type`, with the
forEach/splice index skip.  A primitive value in the slot has
`undefined` `.id`, which matches an `undefined` id argument. -/
def Model.removeRelationship (heap : List Model) (m : Model) (t i : Key)
    (relName : String) : Option Model :=
  let m1 := m.removeDependence t i
  match lookupA m1.fields relName with
  | some (FieldValue.vlist ps) =>
      let ps2 := jsSpliceRemove (matchRef heap t i) ps
      some { m1 with fields := insertA m1.fields relName (FieldValue.vlist ps2) }
  | some (FieldValue.vref p) =>
      if (heapGetM heap p).id == i then
        some { m1 with fields := insertA m1.fields relName FieldValue.vnull }
      else some m1
  | some (FieldValue.vjson _) =>
      if (none : Key) == i then
        some { m1 with fields := insertA m1.fields relName FieldValue.vnull }
      else some m1
  | some FieldValue.vnull => none
  | none => none

/-- `{ type, id }` resource linkage / identifier. -/
structure Linkage where
  type : Key
  id : Key
deriving DecidableEq, Repr

/-- Relationship `data` member: explicit `null`, a single linkage, or
an array of linkages. -/
inductive RelData where
  | null : RelData
  | single : Linkage → RelData
  | many : List Linkage → RelData
deriving DecidableEq, Repr

/-- One entry of a record's `relationships` object; `data := none`
models an absent `data` member. -/
structure RelEntry where
  data : Option RelData := none
  links : Option JsonObj := none
  meta : Option JsonObj := none
deriving DecidableEq, Repr

/-- A JSON:API resource object (and the `data` member of
`Model.serialize`'s output; an absent `attributes`/`relationships`
object is identified with an empty one, which `Store.sync` cannot
distinguish). -/
structure Record where
  type : Key
  id : Key
  attributes : List (String × Option FieldValue) := []
  relationships : List (String × RelEntry) := []
  links : Option JsonObj := none
  meta : Option JsonObj := none
deriving DecidableEq, Repr

/-- Options object of `Model.serialize`. -/
structure SOptions where
  attributes : Option (List String) := none
  relationships : Option (List String) := none
  links : Option (List String) := none
  meta : Option (List String) := none

/-- `relationshipIdentifier(model)` inside `Model.serialize`: a
two-field `{ type, id }` object; a non-reference value yields
`{ type: undefined, id: undefined }`. -/
def relIdentifierOf (heap : List Model) (v : FieldValue) : Linkage :=
  match v with
  | FieldValue.vref p => { type := (heapGetM heap p).type, id := (heapGetM heap p).id }
  | _ => { type := none, id := none }

/-- Serialization of one relationship entry in `Model.serialize`:
falsy slot yields `{ data: null }`, an array maps every element through
`relationshipIdentifier` (no element is omitted), anything else yields
a single identifier; stored per-relationship links/meta are attached. -/
def serializeRelEntry (heap : List Model) (m : Model) (k : String) : RelEntry :=
  let v := lookupA m.fields k
  let d : RelData :=
    if fieldTruthy v then
      match v with
      | some (FieldValue.vlist ps) =>
          RelData.many (ps.map (fun p =>
            { type := (heapGetM heap p).type, id := (heapGetM heap p).id }))
      | some x => RelData.single (relIdentifierOf heap x)
      | none => RelData.null
    else RelData.null
  { data := some d, links := lookupA m.relationshipLinks k,
    meta := lookupA m.relationshipMeta k }

/-- `Model.serialize(options)`, producing the inner `data` resource
object.  Filtered links/meta entries whose key is absent from the
model are dropped (JS would keep them with an `undefined` value, which
is indistinguishable after JSON stringification). -/
def Model.serialize (heap : List Model) (m : Model) (opts : SOptions) : Record :=
  let attrs := opts.attributes.getD m.attributesList
  let rels := opts.relationships.getD m.relationshipsList
  let linksOut : Option JsonObj :=
    if m.links.isEmpty then none
    else match opts.links with
      | none => some m.links
      | some ks =>
          if ks.isEmpty then none
          else some (ks.filterMap (fun k => (lookupA m.links k).map (fun v => (k, v))))
  let metaOut : Option JsonObj :=
    if m.meta.isEmpty then none
    else match opts.meta with
      | none => some m.meta
      | some ks =>
          if ks.isEmpty then none
          else some (ks.filterMap (fun k => (lookupA m.meta k).map (fun v => (k, v))))
  { type := m.type, id := m.id,
    attributes := attrs.map (fun k => (k, lookupA m.fields k)),
    relationships := rels.map (fun k => (k, serializeRelEntry heap m k)),
    links := linksOut, meta := metaOut }

/-- Top-level JSON:API document consumed by `Store.sync`.  `data`
distinguishes a single resource from an array; a `null` primary datum
is out of the modelled input universe (no claim concerns it). -/
structure Payload where
  data : Option (Sum Record (List Record)) := none
  meta : Option JsonVal := none
  links : Option JsonVal := none
  jsonapi : Option JsonVal := none
  errors : Option JsonVal := none
  included : Option (List Record) := none
deriving DecidableEq, Repr

/-- The object assembled by `Store.sync` before returning. -/
structure SyncResponse where
  meta : Option JsonVal := none
  links : Option JsonVal := none
  jsonapi : Option JsonVal := none
  errors : Option JsonVal := none
  data : Option (Sum Nat (List Nat)) := none
deriving DecidableEq, Repr

/-- Return value of `Store.sync`: the response object (errors branch or
`topLevel`), the literal empty array (no `data`), or the synced model
pointer(s). -/
inductive SyncResult where
  | obj : SyncResponse → SyncResult
  | emptyArr : SyncResult
  | dataOne : Nat → SyncResult
  | dataMany : List Nat → SyncResult
deriving DecidableEq, Repr

/-- The store: model heap plus the two type-keyed indices `graph` and
`order` (src/index.js `Store`). -/
structure Store where
  heap : List Model
  graph : List (Key × List (Key × Nat))
  order : List (Key × List Key)
deriving DecidableEq, Repr

def Store.empty : Store := { heap := [], graph := [], order := [] }

def heapGet (s : Store) (p : Nat) : Model := heapGetM s.heap p

/-- In-place list update (identity when the index is out of range). -/
def setAt {α : Type} : List α → Nat → α → List α
  | [], _, _ => []
  | _ :: t, 0, m => m :: t
  | h :: t, n + 1, m => h :: setAt t n m

/-- Overwrite the model behind pointer `p` (in-place JS mutation). -/
def setHeapAt (s : Store) (p : Nat) (m : Model) : Store :=
  { s with heap := setAt s.heap p m }

def mapHeapAt (s : Store) (p : Nat) (f : Model → Model) : Store :=
  setHeapAt s p (f (heapGet s p))

def lookup2 (g : List (Key × List (Key × Nat))) (t i : Key) : Option Nat :=
  match lookupA g t with
  | none => none
  | some tg => lookupA tg i

/-- `Store.find(type, id)`: `null` when the type or id is unknown. -/
def Store.find (s : Store) (t i : Key) : Option Nat := lookup2 s.graph t i

/-- `Store.findAll(type)`: `[]` when the type is unknown; otherwise
maps the order list through the graph (an id missing from the graph
maps to `undefined`); a missing order list for a known graph type is a
TypeError (`none`, unreachable through the public operations). -/
def Store.findAll (s : Store) (t : Key) : Option (List (Option Nat)) :=
  match lookupA s.graph t with
  | none => some []
  | some tg =>
      match lookupA s.order t with
      | none => none
      | some ids => some (ids.map (fun i => lookupA tg i))

/-- `Store.reset()`: reassigns the store's own indices; models on the
heap are untouched. -/
def Store.reset (s : Store) : Store := { s with graph := [], order := [] }

/-- `Store.initModel(type, id)`: find-or-create the model at
`(type, id)` and move `id` to the end of the type's order list. -/
def Store.initModel (s : Store) (t i : Key) : Store × Nat :=
  let tg := (lookupA s.graph t).getD []
  let tor := (lookupA s.order t).getD []
  match lookupA tg i with
  | some p =>
      ({ s with graph := insertA s.graph t tg,
                order := insertA s.order t (jsMoveToEnd tor i) }, p)
  | none =>
      let p := s.heap.length
      ({ heap := s.heap ++ [Model.new t i],
         graph := insertA s.graph t (insertA tg i p),
         order := insertA s.order t (jsMoveToEnd tor i) }, p)

/-- The `findOrInit` resolver closure of `Store.syncRecord`: an unknown
`(type, id)` is created through `initModel` and marked as a
placeholder. -/
def Store.findOrInit (s : Store) (l : Linkage) : Store × Nat :=
  match s.find l.type l.id with
  | some p => (s, p)
  | none =>
      let si := s.initModel l.type l.id
      (mapHeapAt si.1 si.2 (fun m => { m with placeHolder := true }), si.2)

def mapFindOrInit (s : Store) : List Linkage → Store × List Nat
  | [] => (s, [])
  | l :: rest =>
      let sp := s.findOrInit l
      let sps := mapFindOrInit sp.1 rest
      (sps.1, sp.2 :: sps.2)

/-- One step of the attribute loop in `Store.syncRecord`. -/
def syncOneAttr (m : Model) (k : String) (v : Option FieldValue) : Model :=
  let m1 := if m.attributesList.contains k then m
            else { m with attributesList := m.attributesList ++ [k] }
  match v with
  | some w => { m1 with fields := insertA m1.fields k w }
  | none => { m1 with fields := eraseA m1.fields k }

def syncAttributes (s : Store) (mp : Nat)
    (attrs : List (String × Option FieldValue)) : Store :=
  attrs.foldl (fun st kv => mapHeapAt st mp (fun m => syncOneAttr m kv.1 kv.2)) s

/-- Register the reverse dependence of `mp` on target `p` under
relation `k` (`record._addDependence(model._type, model.id, key)`). -/
def addDepFrom (s : Store) (p mp : Nat) (k : String) : Store :=
  let m := heapGet s mp
  mapHeapAt s p (fun tgt => tgt.addDependence m.type m.id k)

def addDeps (s : Store) (mp : Nat) (ps : List Nat) (k : String) : Store :=
  ps.foldl (fun st p => addDepFrom st p mp k) s

/-- Register the relationship name (`model._relationships.push(key)`,
guarded by `indexOf`). -/
def relNamePush (s : Store) (mp : Nat) (k : String) : Store :=
  mapHeapAt s mp (fun m =>
    if m.relationshipsList.contains k then m
    else { m with relationshipsList := m.relationshipsList ++ [k] })

/-- The `typeof relationship.data !== 'undefined'` part of one
relationship entry: register the name, resolve and assign, and record
the reverse dependencies. -/
def relDataStage (s : Store) (mp : Nat) (k : String) : Option RelData → Store
  | none => s
  | some RelData.null =>
      mapHeapAt (relNamePush s mp k) mp
        (fun m => { m with fields := insertA m.fields k FieldValue.vnull })
  | some (RelData.many ls) =>
      let sps := mapFindOrInit (relNamePush s mp k) ls
      let sb := mapHeapAt sps.1 mp (fun m =>
        { m with fields := insertA m.fields k (FieldValue.vlist sps.2) })
      addDeps sb mp sps.2 k
  | some (RelData.single l) =>
      let sp := (relNamePush s mp k).findOrInit l
      let sb := mapHeapAt sp.1 mp (fun m =>
        { m with fields := insertA m.fields k (FieldValue.vref sp.2) })
      addDepFrom sb sp.2 mp k

def relLinksStage (s : Store) (mp : Nat) (k : String) : Option JsonObj → Store
  | some lo => mapHeapAt s mp (fun m =>
      { m with relationshipLinks := insertA m.relationshipLinks k lo })
  | none => s

def relMetaStage (s : Store) (mp : Nat) (k : String) : Option JsonObj → Store
  | some mo => mapHeapAt s mp (fun m =>
      { m with relationshipMeta := insertA m.relationshipMeta k mo })
  | none => s

def syncOneRel (s : Store) (mp : Nat) (k : String) (e : RelEntry) : Store :=
  relMetaStage (relLinksStage (relDataStage s mp k e.data) mp k e.links) mp k e.meta

def syncRelationships (s : Store) (mp : Nat)
    (rels : List (String × RelEntry)) : Store :=
  rels.foldl (fun st kv => syncOneRel st mp kv.1 kv.2) s

/-- `if (record.links) { model._links = model.links = record.links }`. -/
def recLinksStage (s : Store) (mp : Nat) : Option JsonObj → Store
  | some lo => mapHeapAt s mp (fun m => { m with links := lo })
  | none => s

/-- `if (record.meta) { model._meta = model.meta = record.meta }`. -/
def recMetaStage (s : Store) (mp : Nat) : Option JsonObj → Store
  | some mo => mapHeapAt s mp (fun m => { m with meta := mo })
  | none => s

/-- `Store.syncRecord(record)`. -/
def Store.syncRecord (s : Store) (rec : Record) : Store × Nat :=
  let si := s.initModel rec.type rec.id
  let mp := si.2
  let s2 := mapHeapAt si.1 mp (fun m => { m with placeHolder := false })
  let s3 := syncAttributes s2 mp rec.attributes
  let s4 := recLinksStage s3 mp rec.links
  let s5 := recMetaStage s4 mp rec.meta
  (syncRelationships s5 mp rec.relationships, mp)

def mapSyncRecord (s : Store) : List Record → Store × List Nat
  | [] => (s, [])
  | r :: rest =>
      let sp := s.syncRecord r
      let sps := mapSyncRecord sp.1 rest
      (sps.1, sp.2 :: sps.2)

/-- `Store.sync(payload, options)`.  Top-level `meta`/`links`/`jsonapi`
are copied to the response; a present `errors` member short-circuits
before any record is processed; an absent `data` returns the empty
array; otherwise `included` records are synced first, then the primary
data. -/
def Store.sync (s : Store) (payload : Payload) (topLevel : Bool) :
    Store × SyncResult :=
  let resp : SyncResponse :=
    { meta := payload.meta, links := payload.links, jsonapi := payload.jsonapi }
  match payload.errors with
  | some e => (s, SyncResult.obj { resp with errors := some e })
  | none =>
      match payload.data with
      | none => (s, SyncResult.emptyArr)
      | some d =>
          let s1 :=
            match payload.included with
            | some recs => recs.foldl (fun st r => (st.syncRecord r).1) s
            | none => s
          match d with
          | Sum.inl r =>
              let sp := s1.syncRecord r
              (sp.1, if topLevel then SyncResult.obj { resp with data := some (Sum.inl sp.2) }
                     else SyncResult.dataOne sp.2)
          | Sum.inr rs =>
              let sps := mapSyncRecord s1 rs
              (sps.1, if topLevel then SyncResult.obj { resp with data := some (Sum.inr sps.2) }
                      else SyncResult.dataMany sps.2)

/-- The dependents loop of `Store.destroy`: `len` is the length
captured by `forEach` at loop entry, `k` the iteration index; each
dependent is dereferenced through `graph[dependent.type][dependent.id]`
with no null check, so a missing entry is a TypeError (`none`). -/
def destroyLoop (mp : Nat) : Nat → Nat → Store → Option Store
  | 0, _, s => some s
  | rem + 1, k, s =>
      match (heapGet s mp).dependents.get? k with
      | some dep =>
          (match lookup2 s.graph dep.type dep.id with
           | none => none
           | some dp =>
               match Model.removeRelationship s.heap (heapGet s dp)
                   (heapGet s mp).type (heapGet s mp).id dep.relation with
               | none => none
               | some dm => destroyLoop mp rem (k + 1) (setHeapAt s dp dm))
      | none => destroyLoop mp rem (k + 1) s

/-- `Store.destroy(model)` on a non-null model pointer: mark destroyed,
sever every dependent's relationship, then remove the model from
`graph` and `order`.  A missing `graph[type]`/`order[type]` is a
TypeError (`none`); the order splice uses `indexOf`, removing the last
element when the id is absent. -/
def Store.destroyPtr (s : Store) (mp : Nat) : Option Store :=
  let s1 := mapHeapAt s mp (fun m => { m with destroyed := true })
  let len := (heapGet s1 mp).dependents.length
  match destroyLoop mp len 0 s1 with
  | none => none
  | some s2 =>
      let mdl := heapGet s2 mp
      match lookupA s2.graph mdl.type with
      | none => none
      | some tg =>
          let s3 := { s2 with graph := insertA s2.graph mdl.type (eraseA tg mdl.id) }
          match lookupA s3.order mdl.type with
          | none => none
          | some ol =>
              some { s3 with order := insertA s3.order mdl.type (jsRemoveAtIndexOf ol mdl.id) }

/-- `Store.destroy(model)`; a `null`/`undefined` argument throws at
`model._destroyed = true` (`none`). -/
def Store.destroy (s : Store) (model : Option Nat) : Option Store :=
  match model with
  | none => none
  | some mp => s.destroyPtr mp

/-- Wrap a serialized resource as the payload `Store.sync` receives
(`Model.serialize` returns `{ data: resource }`). -/
def payloadOfRecord (rec : Record) : Payload := { data := some (Sum.inl rec) }

/-- Keys of an association list. -/
def keysOf {κ α : Type} (l : List (κ × α)) : List κ := l.map Prod.fst

/-! ### Concrete scenario stores used by the claim theorems -/

def c4Store1 : Store :=
  (Store.empty.sync { data := some (Sum.inr
    [{ type := some "a", id := some "3" }, { type := some "a", id := some "1" },
     { type := some "a", id := some "2" }]) } false).1

def c4Store2 : Store :=
  (c4Store1.sync { data := some (Sum.inl { type := some "a", id := some "1" }) } false).1

def c3Store1 : Store :=
  (Store.empty.sync { data := some (Sum.inl { type := some "article", id := none }) } false).1

def c3Store1d : Store := (c3Store1.destroy (some 0)).getD Store.empty

def c5Model : Model :=
  { Model.new (some "x") (some "9") with
      dependents := [ { id := some "1", type := some "a", relation := "r1" },
                      { id := some "1", type := some "a", relation := "r2" } ] }

def c6Heap : List Model := [Model.new (some "user") (some "1")]

def c6ModelSingle : Model :=
  { Model.new (some "post") (some "7") with
      relationshipsList := ["author"], fields := [("author", FieldValue.vref 0)] }

def c6ModelNull : Model :=
  { Model.new (some "post") (some "7") with
      relationshipsList := ["author"], fields := [("author", FieldValue.vnull)] }

def c7Rec : Record :=
  { type := some "b", id := some "1",
    relationships := [("r", { data := some (RelData.single { type := some "a", id := some "2" }) })] }

def c7Store1 : Store := (Store.empty.sync { data := some (Sum.inl c7Rec) } false).1

def c7Store2 : Store := (c7Store1.destroy (some 0)).getD Store.empty

def c8Heap : List Model := [Model.new (some "user") (some "1"), Model.new (some "user") none]

def c8Model : Model :=
  { Model.new (some "post") (some "7") with
      relationshipsList := ["tags"], fields := [("tags", FieldValue.vlist [0, 1])] }

def c3StoreW : Store :=
  { heap := [Model.new (some "article") (some "9"), Model.new (some "article") none],
    graph := [(some "article", [(some "9", 0)])],
    order := [(some "article", [some "9"])] }

def c1RecW : Record :=
  { type := some "a", id := some "2",
    attributes := [("title", some (FieldValue.vjson (JsonVal.jstr "Real")))] }

/-! ### Round-trip infrastructure: shapes of relationship slots -/

/-- The observable shape of a relationship slot: no reference, one
type+id identifier, or an ordered sequence of identifiers. -/
inductive RelShape where
  | noref : RelShape
  | one : Linkage → RelShape
  | many : List Linkage → RelShape
deriving DecidableEq, Repr

/-- The identifiers a relationship slot references (reading each
pointer through the given heap); a truthy non-reference value reads as
`{ type: undefined, id: undefined }`, exactly as `serialize` would
emit it. -/
def RelShapeOf (heap : List Model) : Option FieldValue → RelShape
  | none => RelShape.noref
  | some FieldValue.vnull => RelShape.noref
  | some (FieldValue.vjson v) =>
      if (FieldValue.vjson v).truthy then RelShape.one { type := none, id := none }
      else RelShape.noref
  | some (FieldValue.vref p) =>
      RelShape.one { type := (heapGetM heap p).type, id := (heapGetM heap p).id }
  | some (FieldValue.vlist ps) =>
      RelShape.many (ps.map (fun p =>
        ({ type := (heapGetM heap p).type, id := (heapGetM heap p).id } : Linkage)))

/-- All model pointers of a slot value are live in the store. -/
def PtrsValid (s : Store) : Option FieldValue → Prop
  | some (FieldValue.vref p) => p < s.heap.length
  | some (FieldValue.vlist ps) => ∀ p ∈ ps, p < s.heap.length
  | _ => True

def ShapeStable (s : Store) (v : Option FieldValue) (sh : RelShape) : Prop :=
  RelShapeOf s.heap v = sh ∧ PtrsValid s v

/-- Evolution of a store that keeps every live model's identity:
the heap only grows and the `type`/`id` of every existing model are
unchanged. -/
def StoreStep (s s' : Store) : Prop :=
  s.heap.length ≤ s'.heap.length
  ∧ ∀ p, p < s.heap.length →
      (heapGet s' p).type = (heapGet s p).type ∧ (heapGet s' p).id = (heapGet s p).id

/-- Every model of the store has `type`/`id` matching its graph key. -/
def GraphConsistent (s : Store) : Prop :=
  ∀ (t i : Key) (p : Nat), s.find t i = some p →
    p < s.heap.length ∧ (heapGet s p).type = t ∧ (heapGet s p).id = i

/-- The store produced by the create branch of `initModel`. -/
def freshBase (s : Store) (t i : Key) : Store :=
  { heap := s.heap ++ [Model.new t i],
    graph := insertA s.graph t (insertA ((lookupA s.graph t).getD []) i s.heap.length),
    order := insertA s.order t (jsMoveToEnd ((lookupA s.order t).getD []) i) }

/-! ### Relationship-stage specification -/

/-- A store evolution that keeps the graph, the heap size, and every
model's dynamic fields, type and id (only bookkeeping such as name
lists, dependents, links/meta may change). -/
def NeutralEvolve (s s' : Store) : Prop :=
  s'.graph = s.graph
  ∧ s'.heap.length = s.heap.length
  ∧ (∀ p, (heapGet s' p).fields = (heapGet s p).fields
      ∧ (heapGet s' p).type = (heapGet s p).type
      ∧ (heapGet s' p).id = (heapGet s p).id)

/-- The `data` member `serialize` emits for a relationship slot. -/
def dataOf (heap : List Model) : Option FieldValue → RelData
  | none => RelData.null
  | some FieldValue.vnull => RelData.null
  | some (FieldValue.vjson w) =>
      if (FieldValue.vjson w).truthy then RelData.single { type := none, id := none }
      else RelData.null
  | some (FieldValue.vref p) =>
      RelData.single { type := (heapGetM heap p).type, id := (heapGetM heap p).id }
  | some (FieldValue.vlist ps) =>
      RelData.many (ps.map (fun p =>
        ({ type := (heapGetM heap p).type, id := (heapGetM heap p).id } : Linkage)))

def ShapeOfData : RelData → RelShape
  | RelData.null => RelShape.noref
  | RelData.single l => RelShape.one l
  | RelData.many ls => RelShape.many ls

/-- The fresh store obtained by syncing a model's serialization into an
empty store (`store2.sync(model.serialize())`). -/
def roundTripStore (s : Store) (mp : Nat) : Store :=
  (Store.empty.sync (payloadOfRecord (Model.serialize s.heap (heapGet s mp) {})) false).1

def c9Store : Store :=
  { heap := [Model.new (some "user") (some "1"), Model.new (some "tag") (some "5"),
      { Model.new (some "post") (some "7") with
          attributesList := ["title"],
          relationshipsList := ["author", "tags", "cover"],
          fields := [("title", FieldValue.vjson (JsonVal.jstr "Cool")),
                     ("author", FieldValue.vref 0),
                     ("tags", FieldValue.vlist [1, 0]),
                     ("cover", FieldValue.vnull)] }],
    graph := [], order := [] }

/-! ### Theorems -/

/-! ### Basic lemmas about the association-list operations -/

theorem lookupA_insertA_self {κ α : Type} [DecidableEq κ]
    (l : List (κ × α)) (k : κ) (v : α) :
    lookupA (insertA l k v) k = some v := by
  induction l with
  | nil => simp [insertA, lookupA]
  | cons kv rest ih =>
      by_cases h : kv.1 = k
      · simp [insertA, h, lookupA]
      · simpa [insertA, h, lookupA] using ih

theorem lookupA_insertA_ne {κ α : Type} [DecidableEq κ]
    (l : List (κ × α)) (k k' : κ) (v : α) (h : k' ≠ k) :
    lookupA (insertA l k v) k' = lookupA l k' := by
  have h' : k ≠ k' := Ne.symm h
  induction l with
  | nil => simp [insertA, lookupA, h']
  | cons kv rest ih =>
      by_cases hk : kv.1 = k
      · subst hk
        simp [insertA, lookupA, h']
      · by_cases hk' : kv.1 = k'
        · simp [insertA, hk, lookupA, hk', h]
        · simpa [insertA, hk, lookupA, hk'] using ih

theorem lookupA_eraseA_ne {κ α : Type} [DecidableEq κ]
    (l : List (κ × α)) (k k' : κ) (h : k' ≠ k) :
    lookupA (eraseA l k) k' = lookupA l k' := by
  induction l with
  | nil => simp [eraseA]
  | cons kv rest ih =>
      by_cases hk : kv.1 = k
      · subst hk
        simp [eraseA, lookupA, Ne.symm h]
      · by_cases hk' : kv.1 = k'
        · simp [eraseA, hk, lookupA, hk', h]
        · simpa [eraseA, hk, lookupA, hk'] using ih

theorem lookupA_eq_none_of_not_mem {κ α : Type} [DecidableEq κ]
    (l : List (κ × α)) (k : κ) (h : k ∉ keysOf l) :
    lookupA l k = none := by
  induction l with
  | nil => simp [lookupA]
  | cons kv rest ih =>
      have hck : keysOf (kv :: rest) = kv.1 :: keysOf rest := rfl
      rw [hck, List.mem_cons, not_or] at h
      have h1 : kv.1 ≠ k := Ne.symm h.1
      simpa [lookupA, h1] using ih h.2

theorem lookupA_eraseA_self {κ α : Type} [DecidableEq κ]
    (l : List (κ × α)) (k : κ) (hnd : (keysOf l).Nodup) :
    lookupA (eraseA l k) k = none := by
  induction l with
  | nil => simp [eraseA, lookupA]
  | cons kv rest ih =>
      simp only [keysOf, List.map_cons, List.nodup_cons] at hnd
      by_cases hk : kv.1 = k
      · simp only [eraseA, if_pos hk]
        exact lookupA_eq_none_of_not_mem rest k (by
          intro hmem
          exact hnd.1 (hk ▸ hmem))
      · simp only [eraseA, if_neg hk, lookupA, if_neg hk]
        exact ih hnd.2

theorem keysOf_eraseA_subset {κ α : Type} [DecidableEq κ]
    (l : List (κ × α)) (k : κ) :
    keysOf (eraseA l k) ⊆ keysOf l := by
  induction l with
  | nil => simp [eraseA]
  | cons kv rest ih =>
      by_cases hk : kv.1 = k
      · simp only [eraseA, if_pos hk, keysOf, List.map_cons]
        exact fun x hx => List.mem_cons_of_mem _ hx
      · simp only [eraseA, if_neg hk, keysOf, List.map_cons]
        intro x hx
        rcases List.mem_cons.mp hx with hh | hh
        · exact List.mem_cons.mpr (Or.inl hh)
        · exact List.mem_cons.mpr (Or.inr (ih hh))

theorem nodup_keys_eraseA {κ α : Type} [DecidableEq κ]
    (l : List (κ × α)) (k : κ) (hnd : (keysOf l).Nodup) :
    (keysOf (eraseA l k)).Nodup := by
  induction l with
  | nil => simpa [eraseA] using hnd
  | cons kv rest ih =>
      simp only [keysOf, List.map_cons, List.nodup_cons] at hnd
      by_cases hk : kv.1 = k
      · simp only [eraseA, if_pos hk]
        exact hnd.2
      · simp only [eraseA, if_neg hk, keysOf, List.map_cons, List.nodup_cons]
        exact ⟨fun hmem => hnd.1 (keysOf_eraseA_subset rest k hmem), ih hnd.2⟩

theorem keysOf_insertA {κ α : Type} [DecidableEq κ]
    (l : List (κ × α)) (k : κ) (v : α) :
    keysOf (insertA l k v) =
      if k ∈ keysOf l then keysOf l else keysOf l ++ [k] := by
  induction l with
  | nil => simp [insertA, keysOf]
  | cons kv rest ih =>
      by_cases hk : kv.1 = k
      · subst hk
        simp [insertA, keysOf]
      · simp only [insertA, if_neg hk, keysOf, List.map_cons]
        simp only [keysOf] at ih
        by_cases hm : k ∈ List.map Prod.fst rest
        · rw [ih, if_pos hm, if_pos (List.mem_cons.mpr (Or.inr hm))]
        · have hnotin : k ∉ kv.1 :: List.map Prod.fst rest := by
            intro hmem
            rcases List.mem_cons.mp hmem with hh | hh
            · exact hk hh.symm
            · exact hm hh
          rw [ih, if_neg hm, if_neg hnotin, List.cons_append]

theorem nodup_keys_insertA {κ α : Type} [DecidableEq κ]
    (l : List (κ × α)) (k : κ) (v : α) (hnd : (keysOf l).Nodup) :
    (keysOf (insertA l k v)).Nodup := by
  rw [keysOf_insertA]
  by_cases hm : k ∈ keysOf l
  · simpa [hm] using hnd
  · rw [if_neg hm]
    refine List.Nodup.append hnd (List.nodup_singleton k) ?_
    intro a ha hb
    exact hm ((List.mem_singleton.mp hb) ▸ ha)

/-- `lookupA` over a keyed map of a function, at a present key. -/
theorem lookupA_map_self {α : Type} (l : List String) (f : String → α) (k : String)
    (hk : k ∈ l) :
    lookupA (l.map (fun x => (x, f x))) k = some (f k) := by
  induction l with
  | nil => cases hk
  | cons a rest ih =>
      by_cases h : a = k
      · subst h
        simp [lookupA]
      · rcases List.mem_cons.mp hk with h' | h'
        · exact absurd h'.symm h
        · simpa [lookupA, h] using ih h'

theorem erase_cons_ne (a : Key) (t : List Key) (x : Key) (h : a ≠ x) :
    (a :: t).erase x = a :: t.erase x := by
  simp [List.erase_cons, h]

/-- `jsMoveToEnd` is "erase the first occurrence, then append". -/
theorem jsMoveToEnd_eq (l : List Key) (x : Key) :
    jsMoveToEnd l x = l.erase x ++ [x] := by
  induction l with
  | nil => simp [jsMoveToEnd, idxOfA]
  | cons a t ih =>
      by_cases h : a = x
      · subst h
        simp [jsMoveToEnd, idxOfA, List.erase_cons_head]
      · rw [erase_cons_ne a t x h]
        cases hidx : idxOfA t x with
        | none =>
            rw [jsMoveToEnd, hidx] at ih
            simp only [jsMoveToEnd, idxOfA, if_neg h, hidx, Option.map_none']
            simpa using ih
        | some j =>
            rw [jsMoveToEnd, hidx] at ih
            simp only [jsMoveToEnd, idxOfA, if_neg h, hidx, Option.map_some']
            simp only [List.take_succ_cons, List.drop_succ_cons]
            simpa using ih

/-! ### Order semantics of initModel -/

theorem initModel_order (s : Store) (t i : Key) :
    lookupA ((s.initModel t i).1).order t =
      some (((lookupA s.order t).getD []).erase i ++ [i]) := by
  rw [Store.initModel]
  cases hg : lookupA ((lookupA s.graph t).getD []) i <;>
    simp [hg, lookupA_insertA_self, jsMoveToEnd_eq]

/-! ### Claim theorems (first group) -/

/-- C2: when a payload's top-level `errors` member is present,
`Store.sync` returns the response object carrying those errors without
touching the store at all: the resulting store is equal to the input
store (in particular `graph` and `order` are unchanged and no model is
created, mutated or reordered), and the errors are the `errors`
component of the returned object. -/
theorem sync_errors_short_circuit (s : Store) (payload : Payload) (tl : Bool)
    (e : JsonVal) (he : payload.errors = some e) :
    (s.sync payload tl).1 = s ∧
    (s.sync payload tl).2 = SyncResult.obj
      { meta := payload.meta, links := payload.links, jsonapi := payload.jsonapi,
        errors := some e, data := none } := by
  constructor <;> simp [Store.sync, he]

theorem sync_errors_short_circuit_witness :
    (Store.empty.sync { errors := some (JsonVal.jstr "boom") } false).1 = Store.empty
    ∧ (Store.empty.sync { errors := some (JsonVal.jstr "boom") } false).2 = SyncResult.obj
      { meta := none, links := none, jsonapi := none,
        errors := some (JsonVal.jstr "boom"), data := none } :=
  sync_errors_short_circuit Store.empty { errors := some (JsonVal.jstr "boom") } false
    (JsonVal.jstr "boom") rfl

/-- C10: `Store.reset` replaces only the store's own `graph` and
`order` indices: the heap of Models is untouched (a Model reference
obtained before the reset still exposes all of its prior state), while
`find` on the reset store returns `null` for every `(type, id)` and
`findAll` returns the empty list for every type. -/
theorem reset_isolation (s : Store) (p : Nat) (t i : Key) :
    (s.reset).heap = s.heap
    ∧ heapGet s.reset p = heapGet s p
    ∧ (s.reset).find t i = none
    ∧ (s.reset).findAll t = some []
    ∧ (s.reset).graph = [] ∧ (s.reset).order = [] := by
  refine ⟨rfl, rfl, ?_, ?_, rfl, rfl⟩ <;>
    simp [Store.reset, Store.find, Store.findAll, lookup2, lookupA]

/-- C4: `Store.initModel` always moves the id to the end of the type's
order list (appending a fresh id, moving a re-synced id to the end),
and in the concrete scenario of syncing ids 3, 1, 2 of one type and
then re-syncing id 1, `findAll` enumerates the models in order
3, 2, 1. -/
theorem findAll_most_recently_synced_last :
    (∀ (s : Store) (t i : Key),
        lookupA ((s.initModel t i).1).order t =
          some (((lookupA s.order t).getD []).erase i ++ [i]))
    ∧ lookupA c4Store1.order (some "a") = some [some "3", some "1", some "2"]
    ∧ c4Store2.findAll (some "a") = some [some 0, some 2, some 1]
    ∧ (heapGet c4Store2 0).id = some "3"
    ∧ (heapGet c4Store2 2).id = some "2"
    ∧ (heapGet c4Store2 1).id = some "1" := by
  refine ⟨initModel_order, ?_, ?_, ?_, ?_, ?_⟩ <;> decide

/-- C5 (code bug): `Model._removeDependence` removes matching triples
with a `forEach`/`splice` loop, which skips the element that shifts
into a removed slot; with two adjacent matching triples the second
survives, so a triple matching the given `(type, id)` remains in the
dependents list. -/
theorem removeDependence_keeps_adjacent_match :
    (c5Model.removeDependence (some "a") (some "1")).dependents
      = [{ id := some "1", type := some "a", relation := "r2" }]
    ∧ matchDep (some "a") (some "1")
        { id := some "1", type := some "a", relation := "r2" } = true := by
  decide

/-- C3 (counterexample): `Store.destroy` has no null/no-id guard:
`destroy(null)` throws (models as `none`), and destroying a synced
id-less model is not a no-op — it removes the model's entry from the
type's `graph` and `order`. -/
theorem destroy_null_or_idless_not_noop_cex :
    Store.destroy c3Store1 none = none
    ∧ c3Store1.destroy (some 0) = some c3Store1d
    ∧ lookupA c3Store1.order (some "article") = some [none]
    ∧ lookupA c3Store1d.order (some "article") = some [] := by
  decide

/-- C6 (counterexample): the single-reference branch of
`Model.removeRelationship` compares only the id (`this[rel].id ===
id`), so a call with a non-matching type but matching id still nulls
the relationship; and when the relationship currently holds `null` the
call throws (`null.id`) instead of being a no-op. -/
theorem removeRelationship_type_ignored_cex :
    (Model.removeRelationship c6Heap c6ModelSingle (some "person") (some "1") "author").map
        (fun m => lookupA m.fields "author") = some (some FieldValue.vnull)
    ∧ (heapGetM c6Heap 0).type = some "user"
    ∧ Model.removeRelationship c6Heap c6ModelNull (some "user") (some "1") "author" = none := by
  decide

/-- C7 (counterexample): `Store.destroy` dereferences each recorded
dependent via `graph[type][id]` with no null check; after the dependent
`(b, 1)` has itself been destroyed, destroying the model it pointed at
throws (`none`) instead of completing. -/
theorem destroy_missing_dependent_cex :
    (c7Store1.destroy (some 0)).isSome = true
    ∧ (heapGet c7Store2 1).dependents = [{ id := some "1", type := some "b", relation := "r" }]
    ∧ c7Store2.find (some "b") (some "1") = none
    ∧ c7Store2.destroy (some 1) = none := by
  decide

/-- C8 (counterexample): serializing a to-many relationship maps every
element of the sequence through `relationshipIdentifier`; an id-less
Model in the sequence is emitted as `{ type, id: undefined }` rather
than omitted. -/
theorem serialize_keeps_idless_entry_cex :
    (heapGetM c8Heap 1).id = none
    ∧ lookupA (Model.serialize c8Heap c8Model {}).relationships "tags"
      = some { data := some (RelData.many [{ type := some "user", id := some "1" }, { type := some "user", id := none }]), links := none, meta := none } := by
  decide

/-! ### Heap access lemmas -/

theorem setAt_length {α : Type} : ∀ (l : List α) (p : Nat) (m : α),
    (setAt l p m).length = l.length
  | [], _, _ => rfl
  | _ :: t, 0, m => rfl
  | _ :: t, n + 1, m => congrArg Nat.succ (setAt_length t n m)

theorem setAt_oob {α : Type} : ∀ (l : List α) (p : Nat) (m : α),
    l.length ≤ p → setAt l p m = l
  | [], _, _, _ => rfl
  | _ :: t, 0, m, h => absurd h (by simp)
  | a :: t, n + 1, m, h =>
      congrArg (a :: ·) (setAt_oob t n m (Nat.le_of_succ_le_succ h))

theorem heapGetM_setAt_self : ∀ (l : List Model) (p : Nat) (m : Model),
    p < l.length → heapGetM (setAt l p m) p = m
  | [], p, _, h => absurd h (by simp)
  | _ :: t, 0, m, _ => rfl
  | _ :: t, p + 1, m, h =>
      heapGetM_setAt_self t p m (Nat.lt_of_succ_lt_succ h)

theorem heapGetM_setAt_ne : ∀ (l : List Model) (p q : Nat) (m : Model),
    q ≠ p → heapGetM (setAt l p m) q = heapGetM l q
  | [], _, _, _, _ => rfl
  | _ :: t, 0, 0, m, h => absurd rfl h
  | _ :: t, 0, q + 1, m, _ => rfl
  | _ :: t, p + 1, 0, m, _ => rfl
  | _ :: t, p + 1, q + 1, m, h =>
      heapGetM_setAt_ne t p q m (fun he => h (congrArg Nat.succ he))

theorem heapGetM_oob : ∀ (l : List Model) (p : Nat),
    l.length ≤ p → heapGetM l p = Model.new none none
  | [], _, _ => rfl
  | _ :: t, 0, h => absurd h (by simp)
  | _ :: t, p + 1, h => heapGetM_oob t p (Nat.le_of_succ_le_succ h)

theorem heapGetM_append_lt : ∀ (l l2 : List Model) (p : Nat),
    p < l.length → heapGetM (l ++ l2) p = heapGetM l p
  | [], _, p, h => absurd h (by simp)
  | _ :: t, l2, 0, _ => rfl
  | _ :: t, l2, p + 1, h =>
      heapGetM_append_lt t l2 p (Nat.lt_of_succ_lt_succ h)

theorem heapGetM_append_self (l : List Model) (m : Model) :
    heapGetM (l ++ [m]) l.length = m := by
  induction l with
  | nil => rfl
  | cons a t ih => exact ih

theorem heapGet_setHeapAt_self (s : Store) (p : Nat) (m : Model)
    (h : p < s.heap.length) : heapGet (setHeapAt s p m) p = m :=
  heapGetM_setAt_self s.heap p m h

theorem heapGet_setHeapAt_ne (s : Store) (p q : Nat) (m : Model)
    (h : q ≠ p) : heapGet (setHeapAt s p m) q = heapGet s q :=
  heapGetM_setAt_ne s.heap p q m h

theorem heapGet_mapHeapAt_self_cases (s : Store) (p : Nat) (f : Model → Model) :
    heapGet (mapHeapAt s p f) p = f (heapGet s p)
    ∨ heapGet (mapHeapAt s p f) p = heapGet s p := by
  by_cases h : p < s.heap.length
  · exact Or.inl (heapGet_setHeapAt_self s p _ h)
  · right
    show heapGetM (setAt s.heap p _) p = heapGetM s.heap p
    rw [setAt_oob s.heap p _ (Nat.le_of_not_lt h)]

theorem graph_mapHeapAt (s : Store) (p : Nat) (f : Model → Model) :
    (mapHeapAt s p f).graph = s.graph := rfl

theorem order_mapHeapAt (s : Store) (p : Nat) (f : Model → Model) :
    (mapHeapAt s p f).order = s.order := rfl

/-! ### The forEach/splice loop versus plain filtering -/

/-- When no two elements matching `q` are adjacent, the JS
forEach/splice loop removes exactly the matching elements. -/
theorem jsSpliceRemove_eq_filter {α : Type} (q : α → Bool) :
    ∀ (l : List α), List.Chain' (fun a b => (q a && q b) = false) l →
      jsSpliceRemove q l = l.filter (fun a => !q a)
  | [], _ => rfl
  | [a], _ => by
      by_cases hq : q a
      · simp [jsSpliceRemove, hq]
      · simp [jsSpliceRemove, hq]
  | a :: b :: rest, h => by
      have hab : (q a && q b) = false := (List.chain'_cons.mp h).1
      have htail : List.Chain' (fun x y => (q x && q y) = false) (b :: rest) :=
        (List.chain'_cons.mp h).2
      by_cases hqa : q a
      · have hqb : q b = false := by
          cases hqb : q b
          · rfl
          · rw [hqa, hqb] at hab
            cases hab
        have ih := jsSpliceRemove_eq_filter q rest (List.Chain'.tail htail)
        simp [jsSpliceRemove, hqa, hqb, ih]
      · have ih := jsSpliceRemove_eq_filter q (b :: rest) htail
        simp [jsSpliceRemove, hqa, ih]

/-! ### Claim theorems (amended behaviour, second group) -/

/-- C6 (amended): `Model.removeRelationship(type, id, relName)` first
removes matching dependence triples; then, when the named relationship
holds a sequence, elements matching both type and id are removed by
the forEach/splice pass (all of them whenever no two matching elements
are adjacent); when it holds a single reference it is set to `null`
exactly when the reference's id equals the given id — the type is not
compared; and when the relationship holds `null` (or is absent) the
call throws a TypeError instead of being a no-op. -/
theorem removeRelationship_semantics (heap : List Model) (m : Model) (t i : Key)
    (r : String) :
    (∀ p, lookupA m.fields r = some (FieldValue.vref p) →
        Model.removeRelationship heap m t i r =
          some (if (heapGetM heap p).id == i then { m.removeDependence t i with fields := insertA m.fields r FieldValue.vnull } else m.removeDependence t i))
    ∧ (lookupA m.fields r = some FieldValue.vnull →
        Model.removeRelationship heap m t i r = none)
    ∧ (lookupA m.fields r = none →
        Model.removeRelationship heap m t i r = none)
    ∧ (∀ ps, lookupA m.fields r = some (FieldValue.vlist ps) →
        List.Chain' (fun p j => (matchRef heap t i p && matchRef heap t i j) = false) ps →
        Model.removeRelationship heap m t i r =
          some { m.removeDependence t i with fields := insertA m.fields r (FieldValue.vlist (ps.filter (fun p => !matchRef heap t i p))) }) := by
  have hf : (m.removeDependence t i).fields = m.fields := rfl
  refine ⟨?_, ?_, ?_, ?_⟩
  · intro p hp
    rw [Model.removeRelationship]
    rw [hf, hp]
    by_cases hid : (heapGetM heap p).id == i
    · simp [hid, hf]
    · simp [hid, hf]
  · intro hp
    rw [Model.removeRelationship, hf, hp]
  · intro hp
    rw [Model.removeRelationship, hf, hp]
  · intro ps hp hchain
    rw [Model.removeRelationship, hf, hp]
    exact congrArg
      (fun l => some { m.removeDependence t i with fields := insertA m.fields r (FieldValue.vlist l) })
      (jsSpliceRemove_eq_filter (matchRef heap t i) ps hchain)

theorem removeRelationship_semantics_witness :
    Model.removeRelationship c6Heap c6ModelSingle (some "person") (some "1") "author"
      = some (if (heapGetM c6Heap 0).id == some "1" then { c6ModelSingle.removeDependence (some "person") (some "1") with fields := insertA c6ModelSingle.fields "author" FieldValue.vnull } else c6ModelSingle.removeDependence (some "person") (some "1")) :=
  (removeRelationship_semantics c6Heap c6ModelSingle (some "person") (some "1") "author").1
    0 (by decide)

/-- C7 (amended): the dependents loop of `Store.destroy` dereferences
each recorded dependent directly through `graph[type][id]` and calls
`removeRelationship` unconditionally, so when a recorded dependent's
`(type, id)` is no longer present in the store the call throws a
TypeError (`none`) instead of completing. -/
theorem destroy_faults_on_missing_dependent (s : Store) (mp : Nat) (d : Dep)
    (rest : List Dep)
    (hd : (heapGet s mp).dependents = d :: rest)
    (hg : lookup2 s.graph d.type d.id = none) :
    s.destroy (some mp) = none := by
  have hmp : mp < s.heap.length := by
    by_contra hge
    have hdef : heapGet s mp = Model.new none none :=
      heapGetM_oob s.heap mp (Nat.le_of_not_lt hge)
    rw [hdef] at hd
    cases hd
  have h1 : heapGet (mapHeapAt s mp (fun m => { m with destroyed := true })) mp
      = { heapGet s mp with destroyed := true } :=
    heapGet_setHeapAt_self s mp _ hmp
  have hlen : (heapGet (mapHeapAt s mp (fun m => { m with destroyed := true })) mp).dependents.length
      = rest.length + 1 := by
    rw [h1]
    show (heapGet s mp).dependents.length = rest.length + 1
    rw [hd]
    rfl
  have hget : (heapGet (mapHeapAt s mp (fun m => { m with destroyed := true })) mp).dependents.get? 0
      = some d := by
    rw [h1]
    show (heapGet s mp).dependents.get? 0 = some d
    rw [hd]
    rfl
  have hgr : lookup2 (mapHeapAt s mp (fun m => { m with destroyed := true })).graph d.type d.id
      = none := hg
  have hdl : destroyLoop mp (rest.length + 1) 0
      (mapHeapAt s mp (fun m => { m with destroyed := true })) = none := by
    rw [destroyLoop, hget]
    simp only [hgr]
  show s.destroyPtr mp = none
  simp only [Store.destroyPtr, hlen, hdl]

theorem destroy_faults_on_missing_dependent_witness :
    c7Store2.destroy (some 1) = none :=
  destroy_faults_on_missing_dependent c7Store2 1
    { id := some "1", type := some "b", relation := "r" } [] (by decide) (by decide)

theorem heapGet_mapHeapAt_type (s : Store) (mp : Nat) :
    (heapGet (mapHeapAt s mp (fun m => { m with destroyed := true })) mp).type
      = (heapGet s mp).type := by
  rcases heapGet_mapHeapAt_self_cases s mp (fun m => { m with destroyed := true }) with h | h <;>
    rw [h]

theorem heapGet_mapHeapAt_id (s : Store) (mp : Nat) :
    (heapGet (mapHeapAt s mp (fun m => { m with destroyed := true })) mp).id
      = (heapGet s mp).id := by
  rcases heapGet_mapHeapAt_self_cases s mp (fun m => { m with destroyed := true }) with h | h <;>
    rw [h]

theorem heapGet_mapHeapAt_dependents (s : Store) (mp : Nat) :
    (heapGet (mapHeapAt s mp (fun m => { m with destroyed := true })) mp).dependents
      = (heapGet s mp).dependents := by
  rcases heapGet_mapHeapAt_self_cases s mp (fun m => { m with destroyed := true }) with h | h <;>
    rw [h]

/-- C3 (amended): `Store.destroy` has no guard for a null argument or
for a model without an id.  `destroy(null)` throws a TypeError
(modelled as `none`); for a dependent-free model, when the model's
type is unknown to `graph` the call throws as well; and when the type
is known but the model's id is absent from the type's order list, the
call completes and `splice(indexOf(id), 1)` removes the LAST entry of
the order list — in no case is the call a state-preserving no-op. -/
theorem destroy_no_guard (s : Store) (mp : Nat)
    (hdeps : (heapGet s mp).dependents = []) :
    s.destroy none = none
    ∧ (lookupA s.graph (heapGet s mp).type = none → s.destroy (some mp) = none)
    ∧ (∀ tg ol, lookupA s.graph (heapGet s mp).type = some tg →
        lookupA s.order (heapGet s mp).type = some ol →
        idxOfA ol (heapGet s mp).id = none →
        s.destroy (some mp) = some { heap := setAt s.heap mp { heapGet s mp with destroyed := true }, graph := insertA s.graph (heapGet s mp).type (eraseA tg (heapGet s mp).id), order := insertA s.order (heapGet s mp).type (ol.take (ol.length - 1)) }) := by
  have hdeps1 := heapGet_mapHeapAt_dependents s mp
  rw [hdeps] at hdeps1
  refine ⟨rfl, ?_, ?_⟩
  · intro hG
    show s.destroyPtr mp = none
    simp only [Store.destroyPtr]
    rw [hdeps1]
    simp only [List.length_nil, destroyLoop, graph_mapHeapAt, heapGet_mapHeapAt_type, hG]
  · intro tg ol hG hO hIdx
    show s.destroyPtr mp = some _
    simp only [Store.destroyPtr]
    rw [hdeps1]
    simp only [List.length_nil, destroyLoop, graph_mapHeapAt, order_mapHeapAt,
      heapGet_mapHeapAt_type, heapGet_mapHeapAt_id, hG, hO]
    simp only [jsRemoveAtIndexOf, hIdx]
    rfl

theorem destroy_no_guard_witness :
    c3StoreW.destroy none = none
    ∧ c3StoreW.destroy (some 1) = some { heap := setAt c3StoreW.heap 1 { heapGet c3StoreW 1 with destroyed := true }, graph := insertA c3StoreW.graph (heapGet c3StoreW 1).type (eraseA [(some "9", 0)] (heapGet c3StoreW 1).id), order := insertA c3StoreW.order (heapGet c3StoreW 1).type ([some "9"].take ([some "9"].length - 1)) } := by
  have h := destroy_no_guard c3StoreW 1 (by decide)
  exact ⟨h.1, h.2.2 [(some "9", 0)] [some "9"] (by decide) (by decide) (by decide)⟩

/-- C8 (amended): `Model.serialize` emits each serialized relationship
as `{ data: null }` when the slot is null (or absent), `{ data: [
{type, id}, ... ] }` when it holds a sequence — where EVERY element of
the sequence is mapped to a two-field type+id identifier, an
unresolved/id-less Model being emitted with an undefined id rather
than omitted — and `{ data: {type, id} }` when it holds a single
Model. -/
theorem serialize_relationship_shapes (heap : List Model) (m : Model) (k : String)
    (hk : k ∈ m.relationshipsList) :
    lookupA (Model.serialize heap m {}).relationships k = some (serializeRelEntry heap m k)
    ∧ (lookupA m.fields k = none ∨ lookupA m.fields k = some FieldValue.vnull →
        (serializeRelEntry heap m k).data = some RelData.null)
    ∧ (∀ ps, lookupA m.fields k = some (FieldValue.vlist ps) →
        (serializeRelEntry heap m k).data = some (RelData.many (ps.map (fun p => { type := (heapGetM heap p).type, id := (heapGetM heap p).id }))))
    ∧ (∀ p, lookupA m.fields k = some (FieldValue.vref p) →
        (serializeRelEntry heap m k).data = some (RelData.single { type := (heapGetM heap p).type, id := (heapGetM heap p).id })) := by
  have hrels : (Model.serialize heap m {}).relationships
      = m.relationshipsList.map (fun x => (x, serializeRelEntry heap m x)) := rfl
  refine ⟨?_, ?_, ?_, ?_⟩
  · rw [hrels]
    exact lookupA_map_self m.relationshipsList (fun x => serializeRelEntry heap m x) k hk
  · intro hcase
    rcases hcase with h | h <;>
      simp [serializeRelEntry, h, fieldTruthy, FieldValue.truthy]
  · intro ps h
    simp [serializeRelEntry, h, fieldTruthy, FieldValue.truthy]
  · intro p h
    simp [serializeRelEntry, h, fieldTruthy, FieldValue.truthy, relIdentifierOf]

theorem serialize_relationship_shapes_witness :
    lookupA (Model.serialize c8Heap c8Model {}).relationships "tags"
      = some (serializeRelEntry c8Heap c8Model "tags")
    ∧ (serializeRelEntry c8Heap c8Model "tags").data
      = some (RelData.many ([0, 1].map (fun p => { type := (heapGetM c8Heap p).type, id := (heapGetM c8Heap p).id }))) := by
  have h := serialize_relationship_shapes c8Heap c8Model "tags" (by decide)
  exact ⟨h.1, h.2.2.1 [0, 1] (by decide)⟩

/-! ### Preservation of graph lookups by the sync pipeline -/

theorem find_def (s : Store) (t i : Key) :
    s.find t i = lookup2 s.graph t i := rfl

theorem lookup2_some (g : List (Key × List (Key × Nat))) (t i : Key) (p : Nat)
    (h : lookup2 g t i = some p) :
    ∃ tg, lookupA g t = some tg ∧ lookupA tg i = some p := by
  rw [lookup2] at h
  cases hg : lookupA g t with
  | none => rw [hg] at h; cases h
  | some tg => rw [hg] at h; exact ⟨tg, rfl, h⟩

theorem initModel_find_same (s : Store) (t i : Key) (p : Nat)
    (h : s.find t i = some p) :
    (s.initModel t i).2 = p ∧ (s.initModel t i).1.find t i = some p := by
  obtain ⟨tg, hg, hi⟩ := lookup2_some s.graph t i p h
  have htg : (lookupA s.graph t).getD [] = tg := by rw [hg]; rfl
  constructor
  · show (s.initModel t i).2 = p
    rw [Store.initModel, htg, hi]
  · show lookup2 (s.initModel t i).1.graph t i = some p
    rw [Store.initModel, htg, hi]
    show lookup2 (insertA s.graph t tg) t i = some p
    rw [lookup2, lookupA_insertA_self]
    exact hi

theorem initModel_find_pres (s : Store) (t' i' t i : Key) (p : Nat)
    (h : s.find t i = some p) :
    (s.initModel t' i').1.find t i = some p := by
  obtain ⟨tg, hg, hi⟩ := lookup2_some s.graph t i p h
  by_cases ht : t' = t
  · subst ht
    have htg : (lookupA s.graph t').getD [] = tg := by rw [hg]; rfl
    by_cases hii : i' = i
    · subst hii
      exact (initModel_find_same s t' i' p h).2
    · show lookup2 (s.initModel t' i').1.graph t' i = some p
      rw [Store.initModel, htg]
      cases hfound : lookupA tg i' with
      | some q =>
          show lookup2 (insertA s.graph t' tg) t' i = some p
          rw [lookup2, lookupA_insertA_self]
          exact hi
      | none =>
          show lookup2 (insertA s.graph t' (insertA tg i' s.heap.length)) t' i = some p
          rw [lookup2, lookupA_insertA_self]
          show lookupA (insertA tg i' s.heap.length) i = some p
          rw [lookupA_insertA_ne tg i' i s.heap.length (fun he => hii he.symm)]
          exact hi
  · show lookup2 (s.initModel t' i').1.graph t i = some p
    rw [Store.initModel]
    cases hfound : lookupA ((lookupA s.graph t').getD []) i' with
    | some q =>
        show lookup2 (insertA s.graph t' ((lookupA s.graph t').getD [])) t i = some p
        rw [lookup2, lookupA_insertA_ne s.graph t' t _ (fun he => ht he.symm), hg]
        exact hi
    | none =>
        show lookup2 (insertA s.graph t' (insertA ((lookupA s.graph t').getD []) i' s.heap.length)) t i = some p
        rw [lookup2, lookupA_insertA_ne s.graph t' t _ (fun he => ht he.symm), hg]
        exact hi

theorem find_mapHeapAt (s : Store) (q : Nat) (f : Model → Model) (t i : Key) :
    (mapHeapAt s q f).find t i = s.find t i := rfl

theorem findOrInit_found (s : Store) (t i : Key) (p : Nat)
    (h : s.find t i = some p) :
    s.findOrInit { type := t, id := i } = (s, p) := by
  rw [Store.findOrInit]
  show (match s.find t i with
    | some p => (s, p)
    | none =>
        let si := s.initModel t i
        (mapHeapAt si.1 si.2 (fun m => { m with placeHolder := true }), si.2)) = (s, p)
  rw [h]

theorem findOrInit_find_pres (s : Store) (l : Linkage) (t i : Key) (p : Nat)
    (h : s.find t i = some p) :
    ((s.findOrInit l).1).find t i = some p := by
  rw [Store.findOrInit]
  cases hf : s.find l.type l.id with
  | some q => exact h
  | none =>
      show (mapHeapAt (s.initModel l.type l.id).1 (s.initModel l.type l.id).2 _).find t i = some p
      rw [find_mapHeapAt]
      exact initModel_find_pres s l.type l.id t i p h

theorem mapFindOrInit_find_pres : ∀ (ls : List Linkage) (s : Store) (t i : Key) (p : Nat),
    s.find t i = some p → ((mapFindOrInit s ls).1).find t i = some p
  | [], _, _, _, _, h => h
  | l :: rest, s, t, i, p, h =>
      mapFindOrInit_find_pres rest (s.findOrInit l).1 t i p (findOrInit_find_pres s l t i p h)

theorem syncAttributes_graph : ∀ (attrs : List (String × Option FieldValue)) (s : Store) (mp : Nat),
    (syncAttributes s mp attrs).graph = s.graph
  | [], _, _ => rfl
  | kv :: rest, s, mp =>
      syncAttributes_graph rest (mapHeapAt s mp (fun m => syncOneAttr m kv.1 kv.2)) mp

theorem addDeps_graph : ∀ (ps : List Nat) (s : Store) (mp : Nat) (k : String),
    (addDeps s mp ps k).graph = s.graph
  | [], _, _, _ => rfl
  | p :: rest, s, mp, k => addDeps_graph rest (addDepFrom s p mp k) mp k

theorem relDataStage_find_pres (s : Store) (mp : Nat) (k : String)
    (o : Option RelData) (t i : Key) (p : Nat) (h : s.find t i = some p) :
    (relDataStage s mp k o).find t i = some p := by
  cases o with
  | none => exact h
  | some d =>
      cases d with
      | null => exact h
      | many ls =>
          show (addDeps _ mp _ k).find t i = some p
          rw [find_def, addDeps_graph, ← find_def]
          exact mapFindOrInit_find_pres ls _ t i p h
      | single l =>
          show (addDepFrom _ _ mp k).find t i = some p
          rw [show ∀ (st : Store) (a b : Nat) (kk : String), (addDepFrom st a b kk).find t i = st.find t i from fun _ _ _ _ => rfl]
          exact findOrInit_find_pres _ l t i p h

theorem relLinksStage_find (s : Store) (mp : Nat) (k : String) (o : Option JsonObj)
    (t i : Key) : (relLinksStage s mp k o).find t i = s.find t i := by
  cases o <;> rfl

theorem relMetaStage_find (s : Store) (mp : Nat) (k : String) (o : Option JsonObj)
    (t i : Key) : (relMetaStage s mp k o).find t i = s.find t i := by
  cases o <;> rfl

theorem syncOneRel_find_pres (s : Store) (mp : Nat) (k : String) (e : RelEntry)
    (t i : Key) (p : Nat) (h : s.find t i = some p) :
    (syncOneRel s mp k e).find t i = some p := by
  rw [syncOneRel, relMetaStage_find, relLinksStage_find]
  exact relDataStage_find_pres s mp k e.data t i p h

theorem syncRelationships_find_pres : ∀ (rels : List (String × RelEntry)) (s : Store) (mp : Nat)
    (t i : Key) (p : Nat), s.find t i = some p →
    (syncRelationships s mp rels).find t i = some p
  | [], _, _, _, _, _, h => h
  | kv :: rest, s, mp, t, i, p, h =>
      syncRelationships_find_pres rest (syncOneRel s mp kv.1 kv.2) mp t i p
        (syncOneRel_find_pres s mp kv.1 kv.2 t i p h)

theorem syncRecord_find_same (s : Store) (rec : Record) (t i : Key) (p : Nat)
    (h : s.find t i = some p) (ht : rec.type = t) (hi : rec.id = i) :
    (s.syncRecord rec).2 = p ∧ (s.syncRecord rec).1.find t i = some p := by
  have hinit := initModel_find_same s t i p h
  constructor
  · show (s.syncRecord rec).2 = p
    rw [Store.syncRecord, ht, hi]
    exact hinit.1
  · show (s.syncRecord rec).1.find t i = some p
    rw [Store.syncRecord, ht, hi]
    apply syncRelationships_find_pres
    have hlinks : ∀ (s3 : Store) (o : Option JsonObj) (mp : Nat), s3.find t i = some p →
        (recLinksStage s3 mp o).find t i = some p := by
      intro s3 o mp h3
      cases o <;> simpa using h3
    have hmeta : ∀ (s4 : Store) (o : Option JsonObj) (mp : Nat), s4.find t i = some p →
        (recMetaStage s4 mp o).find t i = some p := by
      intro s4 o mp h4
      cases o <;> simpa using h4
    apply hmeta
    apply hlinks
    rw [find_def, syncAttributes_graph, ← find_def, find_mapHeapAt]
    exact hinit.2

/-- C1: once a Model for `(type, id)` is in the store at pointer `p`,
every resolution path returns that same instance: `initModel` returns
`p` and keeps `find` at `p`, the `findOrInit` relationship resolver
returns `p` without touching the store, and `syncRecord` of a record
with that `(type, id)` — including syncing real data into a Model first
created as a placeholder — returns `p` and leaves `find` at `p`, so the
update happens in place on the instance a caller already references. -/
theorem resolve_identity_stable (s : Store) (t i : Key) (p : Nat) (rec : Record)
    (h : s.find t i = some p) (ht : rec.type = t) (hi : rec.id = i) :
    (s.initModel t i).2 = p
    ∧ (s.initModel t i).1.find t i = some p
    ∧ s.findOrInit { type := t, id := i } = (s, p)
    ∧ (s.syncRecord rec).2 = p
    ∧ (s.syncRecord rec).1.find t i = some p := by
  obtain ⟨h1, h2⟩ := initModel_find_same s t i p h
  obtain ⟨h4, h5⟩ := syncRecord_find_same s rec t i p h ht hi
  exact ⟨h1, h2, findOrInit_found s t i p h, h4, h5⟩

theorem resolve_identity_stable_witness :
    (c7Store1.initModel (some "a") (some "2")).2 = 1
    ∧ (c7Store1.initModel (some "a") (some "2")).1.find (some "a") (some "2") = some 1
    ∧ c7Store1.findOrInit { type := some "a", id := some "2" } = (c7Store1, 1)
    ∧ (c7Store1.syncRecord c1RecW).2 = 1
    ∧ (c7Store1.syncRecord c1RecW).1.find (some "a") (some "2") = some 1 :=
  resolve_identity_stable c7Store1 (some "a") (some "2") 1 c1RecW (by decide) rfl rfl

theorem storeStep_refl (s : Store) : StoreStep s s :=
  ⟨Nat.le_refl _, fun _ _ => ⟨rfl, rfl⟩⟩

theorem storeStep_trans (s1 s2 s3 : Store) (h1 : StoreStep s1 s2)
    (h2 : StoreStep s2 s3) : StoreStep s1 s3 := by
  refine ⟨Nat.le_trans h1.1 h2.1, fun p hp => ?_⟩
  have h2p := h2.2 p (Nat.lt_of_lt_of_le hp h1.1)
  have h1p := h1.2 p hp
  exact ⟨h2p.1.trans h1p.1, h2p.2.trans h1p.2⟩

theorem shapeStable_mono (s s' : Store) (v : Option FieldValue) (sh : RelShape)
    (hst : StoreStep s s') (h : ShapeStable s v sh) : ShapeStable s' v sh := by
  obtain ⟨hsh, hval⟩ := h
  cases v with
  | none => exact ⟨hsh, trivial⟩
  | some fv =>
      cases fv with
      | vnull => exact ⟨hsh, trivial⟩
      | vjson w => exact ⟨hsh, trivial⟩
      | vref p =>
          have hp : p < s.heap.length := hval
          have hty := hst.2 p hp
          refine ⟨?_, Nat.lt_of_lt_of_le hp hst.1⟩
          rw [← hsh]
          show RelShape.one _ = RelShape.one _
          rw [show (heapGetM s'.heap p).type = (heapGetM s.heap p).type from hty.1,
            show (heapGetM s'.heap p).id = (heapGetM s.heap p).id from hty.2]
      | vlist ps =>
          have hps : ∀ p ∈ ps, p < s.heap.length := hval
          refine ⟨?_, fun p hp => Nat.lt_of_lt_of_le (hps p hp) hst.1⟩
          rw [← hsh]
          show RelShape.many _ = RelShape.many _
          have : ∀ p ∈ ps,
              ({ type := (heapGetM s'.heap p).type, id := (heapGetM s'.heap p).id } : Linkage)
                = { type := (heapGetM s.heap p).type, id := (heapGetM s.heap p).id } := by
            intro p hp
            have hty := hst.2 p (hps p hp)
            rw [show (heapGetM s'.heap p).type = (heapGetM s.heap p).type from hty.1,
              show (heapGetM s'.heap p).id = (heapGetM s.heap p).id from hty.2]
          rw [List.map_congr_left this]

/-- A `mapHeapAt` whose function keeps `fields`, `type` and `id` is
neutral for every fact the round-trip proof tracks. -/
theorem mapHeapAt_neutral (s : Store) (mp : Nat) (f : Model → Model)
    (hf : ∀ mm, (f mm).fields = mm.fields ∧ (f mm).type = mm.type ∧ (f mm).id = mm.id) :
    (mapHeapAt s mp f).graph = s.graph
    ∧ (mapHeapAt s mp f).heap.length = s.heap.length
    ∧ (∀ p, (heapGet (mapHeapAt s mp f) p).fields = (heapGet s p).fields
        ∧ (heapGet (mapHeapAt s mp f) p).type = (heapGet s p).type
        ∧ (heapGet (mapHeapAt s mp f) p).id = (heapGet s p).id)
    ∧ (GraphConsistent s → GraphConsistent (mapHeapAt s mp f))
    ∧ StoreStep s (mapHeapAt s mp f) := by
  have hproj : ∀ p, (heapGet (mapHeapAt s mp f) p).fields = (heapGet s p).fields
      ∧ (heapGet (mapHeapAt s mp f) p).type = (heapGet s p).type
      ∧ (heapGet (mapHeapAt s mp f) p).id = (heapGet s p).id := by
    intro p
    by_cases hp : p = mp
    · subst hp
      rcases heapGet_mapHeapAt_self_cases s p f with h | h
      · rw [h]
        exact hf (heapGet s p)
      · rw [h]
        exact ⟨rfl, rfl, rfl⟩
    · have hx : heapGet (mapHeapAt s mp f) p = heapGet s p :=
        heapGet_setHeapAt_ne s mp p (f (heapGet s mp)) hp
      rw [hx]
      exact ⟨rfl, rfl, rfl⟩
  have hlen : (mapHeapAt s mp f).heap.length = s.heap.length := setAt_length s.heap mp _
  refine ⟨rfl, hlen, hproj, ?_, ?_⟩
  · intro hgc t i p hfind
    have hold := hgc t i p hfind
    exact ⟨by rw [hlen]; exact hold.1, (hproj p).2.1.trans hold.2.1, (hproj p).2.2.trans hold.2.2⟩
  · exact ⟨Nat.le_of_eq hlen.symm, fun p _ => ⟨(hproj p).2.1, (hproj p).2.2⟩⟩

theorem lookup2_insertA_fresh (g : List (Key × List (Key × Nat))) (t i : Key)
    (q : Nat) (t' i' : Key) :
    lookup2 (insertA g t (insertA ((lookupA g t).getD []) i q)) t' i'
      = if t' = t ∧ i' = i then some q else lookup2 g t' i' := by
  by_cases ht : t' = t
  · subst ht
    by_cases hi : i' = i
    · subst hi
      rw [if_pos ⟨rfl, rfl⟩, lookup2, lookupA_insertA_self]
      show lookupA (insertA ((lookupA g t').getD []) i' q) i' = some q
      rw [lookupA_insertA_self]
    · rw [if_neg (fun hc => hi hc.2), lookup2, lookupA_insertA_self]
      show lookupA (insertA ((lookupA g t').getD []) i q) i' = lookup2 g t' i'
      rw [lookupA_insertA_ne _ i i' q hi]
      cases hg : lookupA g t' with
      | none =>
          rw [lookup2, hg]
          rfl
      | some tgg =>
          rw [lookup2, hg]
          rfl
  · rw [if_neg (fun hc => ht hc.1), lookup2, lookupA_insertA_ne g t t' _ ht]
    rfl

theorem initModel_not_found (s : Store) (t i : Key) (h : s.find t i = none) :
    s.initModel t i = (freshBase s t i, s.heap.length) := by
  have hl : lookupA ((lookupA s.graph t).getD []) i = none := by
    rw [find_def, lookup2] at h
    cases hg : lookupA s.graph t with
    | none => rfl
    | some tg =>
        rw [hg] at h
        exact h
  rw [Store.initModel, hl]
  rfl

theorem freshBase_heapGet_lt (s : Store) (t i : Key) (p : Nat) (hp : p < s.heap.length) :
    heapGet (freshBase s t i) p = heapGet s p :=
  heapGetM_append_lt s.heap [Model.new t i] p hp

theorem freshBase_heapGet_self (s : Store) (t i : Key) :
    heapGet (freshBase s t i) s.heap.length = Model.new t i :=
  heapGetM_append_self s.heap (Model.new t i)

theorem freshBase_length (s : Store) (t i : Key) :
    (freshBase s t i).heap.length = s.heap.length + 1 := by
  show (s.heap ++ [Model.new t i]).length = s.heap.length + 1
  simp

theorem freshBase_find (s : Store) (t i t' i' : Key) :
    (freshBase s t i).find t' i'
      = if t' = t ∧ i' = i then some s.heap.length else s.find t' i' :=
  lookup2_insertA_fresh s.graph t i s.heap.length t' i'

theorem findOrInit_spec (s : Store) (l : Linkage) (hgc : GraphConsistent s) :
    GraphConsistent (s.findOrInit l).1
    ∧ StoreStep s (s.findOrInit l).1
    ∧ (∀ p, p < s.heap.length → heapGet (s.findOrInit l).1 p = heapGet s p)
    ∧ (s.findOrInit l).2 < (s.findOrInit l).1.heap.length
    ∧ (heapGet (s.findOrInit l).1 (s.findOrInit l).2).type = l.type
    ∧ (heapGet (s.findOrInit l).1 (s.findOrInit l).2).id = l.id
    ∧ (∀ t i p, s.find t i = some p → (s.findOrInit l).1.find t i = some p) := by
  cases hf : s.find l.type l.id with
  | some q =>
      have hres : s.findOrInit l = (s, q) := by
        rw [Store.findOrInit, hf]
      rw [hres]
      have hq := hgc l.type l.id q hf
      exact ⟨hgc, storeStep_refl s, fun _ _ => rfl, hq.1, hq.2.1, hq.2.2, fun _ _ _ hh => hh⟩
  | none =>
      have hIM := initModel_not_found s l.type l.id hf
      have hres : s.findOrInit l
          = (mapHeapAt (freshBase s l.type l.id) s.heap.length (fun m => { m with placeHolder := true }), s.heap.length) := by
        rw [Store.findOrInit, hf, hIM]
      rw [hres]
      have hnlt : s.heap.length < (freshBase s l.type l.id).heap.length := by
        rw [freshBase_length]
        exact Nat.lt_succ_self _
      have hlen2 : (mapHeapAt (freshBase s l.type l.id) s.heap.length (fun m => { m with placeHolder := true })).heap.length = s.heap.length + 1 := by
        show (setAt (freshBase s l.type l.id).heap s.heap.length _).length = s.heap.length + 1
        rw [setAt_length]
        exact freshBase_length s l.type l.id
      have hself : heapGet (mapHeapAt (freshBase s l.type l.id) s.heap.length (fun m => { m with placeHolder := true })) s.heap.length = { Model.new l.type l.id with placeHolder := true } := by
        show heapGet (setHeapAt (freshBase s l.type l.id) s.heap.length ({ heapGet (freshBase s l.type l.id) s.heap.length with placeHolder := true })) s.heap.length = _
        rw [heapGet_setHeapAt_self (freshBase s l.type l.id) s.heap.length _ hnlt,
          freshBase_heapGet_self]
      have hfr : ∀ p, p < s.heap.length →
          heapGet (mapHeapAt (freshBase s l.type l.id) s.heap.length (fun m => { m with placeHolder := true })) p = heapGet s p := by
        intro p hp
        have h1 := heapGet_setHeapAt_ne (freshBase s l.type l.id) s.heap.length p
          ({ heapGet (freshBase s l.type l.id) s.heap.length with placeHolder := true })
          (Nat.ne_of_lt hp)
        rw [freshBase_heapGet_lt s l.type l.id p hp] at h1
        exact h1
      have hfind : ∀ t' i', (mapHeapAt (freshBase s l.type l.id) s.heap.length (fun m => { m with placeHolder := true })).find t' i'
          = if t' = l.type ∧ i' = l.id then some s.heap.length else s.find t' i' := by
        intro t' i'
        rw [find_mapHeapAt]
        exact freshBase_find s l.type l.id t' i'
      refine ⟨?_, ?_, hfr, ?_, ?_, ?_, ?_⟩
      · intro t' i' p hp
        rw [hfind t' i'] at hp
        by_cases hcase : t' = l.type ∧ i' = l.id
        · rw [if_pos hcase] at hp
          injection hp with hp
          subst hp
          refine ⟨?_, ?_, ?_⟩
          · rw [hlen2]
            exact Nat.lt_succ_self _
          · rw [hself, hcase.1]
            rfl
          · rw [hself, hcase.2]
            rfl
        · rw [if_neg hcase] at hp
          have hold := hgc t' i' p hp
          refine ⟨?_, ?_, ?_⟩
          · rw [hlen2]
            exact Nat.lt_succ_of_lt hold.1
          · rw [hfr p hold.1]
            exact hold.2.1
          · rw [hfr p hold.1]
            exact hold.2.2
      · refine ⟨?_, ?_⟩
        · rw [hlen2]
          exact Nat.le_succ _
        · intro p hp
          rw [hfr p hp]
          exact ⟨rfl, rfl⟩
      · rw [hlen2]
        exact Nat.lt_succ_self _
      · rw [hself]
        rfl
      · rw [hself]
        rfl
      · intro t' i' p hp
        rw [hfind t' i']
        by_cases hcase : t' = l.type ∧ i' = l.id
        · exfalso
          rw [hcase.1, hcase.2] at hp
          rw [hf] at hp
          cases hp
        · rw [if_neg hcase]
          exact hp

theorem mapFindOrInit_spec : ∀ (ls : List Linkage) (s : Store), GraphConsistent s →
    GraphConsistent (mapFindOrInit s ls).1
    ∧ StoreStep s (mapFindOrInit s ls).1
    ∧ (∀ p, p < s.heap.length → heapGet (mapFindOrInit s ls).1 p = heapGet s p)
    ∧ (∀ q ∈ (mapFindOrInit s ls).2, q < (mapFindOrInit s ls).1.heap.length)
    ∧ ((mapFindOrInit s ls).2.map (fun q => ({ type := (heapGet (mapFindOrInit s ls).1 q).type, id := (heapGet (mapFindOrInit s ls).1 q).id } : Linkage)) = ls)
    ∧ (∀ t i p, s.find t i = some p → (mapFindOrInit s ls).1.find t i = some p)
  | [], s, hgc => by
      refine ⟨hgc, storeStep_refl s, fun _ _ => rfl, ?_, rfl, fun _ _ _ hh => hh⟩
      intro q hq
      simp [mapFindOrInit] at hq
  | l :: rest, s, hgc => by
      obtain ⟨hgc1, hst1, hfr1, hlt1, hty1, hid1, hfp1⟩ := findOrInit_spec s l hgc
      obtain ⟨hgc2, hst2, hfr2, hval2, hmap2, hfp2⟩ :=
        mapFindOrInit_spec rest (s.findOrInit l).1 hgc1
      have hcons : mapFindOrInit s (l :: rest)
          = ((mapFindOrInit (s.findOrInit l).1 rest).1,
             (s.findOrInit l).2 :: (mapFindOrInit (s.findOrInit l).1 rest).2) := rfl
      rw [hcons]
      have hheadget : heapGet (mapFindOrInit (s.findOrInit l).1 rest).1 (s.findOrInit l).2
          = heapGet (s.findOrInit l).1 (s.findOrInit l).2 := hfr2 _ hlt1
      refine ⟨hgc2, storeStep_trans _ _ _ hst1 hst2, ?_, ?_, ?_, ?_⟩
      · intro p hp
        rw [hfr2 p (Nat.lt_of_lt_of_le hp hst1.1), hfr1 p hp]
      · intro q hq
        rcases List.mem_cons.mp hq with hq | hq
        · subst hq
          exact Nat.lt_of_lt_of_le hlt1 hst2.1
        · exact hval2 q hq
      · show (({ type := (heapGet (mapFindOrInit (s.findOrInit l).1 rest).1 (s.findOrInit l).2).type, id := (heapGet (mapFindOrInit (s.findOrInit l).1 rest).1 (s.findOrInit l).2).id } : Linkage) :: (mapFindOrInit (s.findOrInit l).1 rest).2.map _) = l :: rest
        rw [hheadget]
        rw [hty1, hid1]
        rw [hmap2]
      · intro t i p hp
        exact hfp2 t i p (hfp1 t i p hp)

theorem syncAttributes_order : ∀ (attrs : List (String × Option FieldValue)) (s : Store) (mp : Nat),
    (syncAttributes s mp attrs).order = s.order
  | [], _, _ => rfl
  | kv :: rest, s, mp =>
      syncAttributes_order rest (mapHeapAt s mp (fun m => syncOneAttr m kv.1 kv.2)) mp

theorem syncOneAttr_type (m : Model) (k : String) (v : Option FieldValue) :
    (syncOneAttr m k v).type = m.type := by
  cases v <;> by_cases h : k ∈ m.attributesList <;> simp [syncOneAttr, h]

theorem syncOneAttr_id (m : Model) (k : String) (v : Option FieldValue) :
    (syncOneAttr m k v).id = m.id := by
  cases v <;> by_cases h : k ∈ m.attributesList <;> simp [syncOneAttr, h]

theorem syncOneAttr_fields_some (m : Model) (k : String) (w : FieldValue) :
    (syncOneAttr m k (some w)).fields = insertA m.fields k w := by
  by_cases h : k ∈ m.attributesList <;> simp [syncOneAttr, h]

theorem syncOneAttr_fields_none (m : Model) (k : String) :
    (syncOneAttr m k none).fields = eraseA m.fields k := by
  by_cases h : k ∈ m.attributesList <;> simp [syncOneAttr, h]

theorem syncAttributes_spec : ∀ (pairs : List (String × Option FieldValue)) (s : Store) (mp : Nat),
    mp < s.heap.length →
    (keysOf (heapGet s mp).fields).Nodup →
    (pairs.map Prod.fst).Nodup →
    (syncAttributes s mp pairs).heap.length = s.heap.length
    ∧ (∀ q, q ≠ mp → heapGet (syncAttributes s mp pairs) q = heapGet s q)
    ∧ (heapGet (syncAttributes s mp pairs) mp).type = (heapGet s mp).type
    ∧ (heapGet (syncAttributes s mp pairs) mp).id = (heapGet s mp).id
    ∧ (keysOf (heapGet (syncAttributes s mp pairs) mp).fields).Nodup
    ∧ (∀ k, k ∉ pairs.map Prod.fst →
        lookupA (heapGet (syncAttributes s mp pairs) mp).fields k
          = lookupA (heapGet s mp).fields k)
    ∧ (∀ k v, (k, v) ∈ pairs →
        lookupA (heapGet (syncAttributes s mp pairs) mp).fields k = v)
  | [], s, mp, _, hndf, _ => by
      refine ⟨rfl, fun _ _ => rfl, rfl, rfl, hndf, fun _ _ => rfl, ?_⟩
      intro k v hkv
      cases hkv
  | (k0, v0) :: rest, s, mp, hmp, hndf, hndp => by
      have hnd0 : k0 ∉ rest.map Prod.fst ∧ (rest.map Prod.fst).Nodup := by
        have : (((k0, v0) :: rest).map Prod.fst) = k0 :: rest.map Prod.fst := rfl
        rw [this] at hndp
        exact List.nodup_cons.mp hndp
      have hm' : heapGet (mapHeapAt s mp (fun m => syncOneAttr m k0 v0)) mp
          = syncOneAttr (heapGet s mp) k0 v0 :=
        heapGet_setHeapAt_self s mp _ hmp
      have hq' : ∀ q, q ≠ mp →
          heapGet (mapHeapAt s mp (fun m => syncOneAttr m k0 v0)) q = heapGet s q :=
        fun q hqne => heapGet_setHeapAt_ne s mp q _ hqne
      have hlen' : (mapHeapAt s mp (fun m => syncOneAttr m k0 v0)).heap.length
          = s.heap.length := setAt_length s.heap mp _
      have hndf' : (keysOf (heapGet (mapHeapAt s mp (fun m => syncOneAttr m k0 v0)) mp).fields).Nodup := by
        rw [hm']
        cases v0 with
        | none =>
            rw [syncOneAttr_fields_none]
            exact nodup_keys_eraseA _ k0 hndf
        | some w =>
            rw [syncOneAttr_fields_some]
            exact nodup_keys_insertA _ k0 w hndf
      have hlk0 : lookupA (heapGet (mapHeapAt s mp (fun m => syncOneAttr m k0 v0)) mp).fields k0 = v0 := by
        rw [hm']
        cases v0 with
        | none =>
            rw [syncOneAttr_fields_none]
            exact lookupA_eraseA_self _ k0 hndf
        | some w =>
            rw [syncOneAttr_fields_some]
            exact lookupA_insertA_self _ k0 w
      have hlne : ∀ k, k ≠ k0 →
          lookupA (heapGet (mapHeapAt s mp (fun m => syncOneAttr m k0 v0)) mp).fields k
            = lookupA (heapGet s mp).fields k := by
        intro k hk
        rw [hm']
        cases v0 with
        | none =>
            rw [syncOneAttr_fields_none]
            exact lookupA_eraseA_ne _ k0 k hk
        | some w =>
            rw [syncOneAttr_fields_some]
            exact lookupA_insertA_ne _ k0 k w hk
      obtain ⟨ih1, ih2, ih3, ih4, ih5, ih6, ih7⟩ :=
        syncAttributes_spec rest (mapHeapAt s mp (fun m => syncOneAttr m k0 v0)) mp
          (by rw [hlen']; exact hmp) hndf' hnd0.2
      have hstep : syncAttributes s mp ((k0, v0) :: rest)
          = syncAttributes (mapHeapAt s mp (fun m => syncOneAttr m k0 v0)) mp rest := rfl
      rw [hstep]
      refine ⟨ih1.trans hlen', ?_, ?_, ?_, ih5, ?_, ?_⟩
      · intro q hqne
        rw [ih2 q hqne, hq' q hqne]
      · rw [ih3, hm', syncOneAttr_type]
      · rw [ih4, hm', syncOneAttr_id]
      · intro k hk
        have hk0 : k ≠ k0 := by
          intro he
          exact hk (by rw [he]; exact List.mem_cons_self _ _)
        have hkrest : k ∉ rest.map Prod.fst := by
          intro hmem
          exact hk (List.mem_cons_of_mem _ hmem)
        rw [ih6 k hkrest, hlne k hk0]
      · intro k v hkv
        rcases List.mem_cons.mp hkv with he | hmem
        · injection he with he1 he2
          subst he1
          subst he2
          rw [ih6 k hnd0.1, hlk0]
        · exact ih7 k v hmem

theorem neutralEvolve_refl (s : Store) : NeutralEvolve s s :=
  ⟨rfl, rfl, fun _ => ⟨rfl, rfl, rfl⟩⟩

theorem neutralEvolve_trans (s1 s2 s3 : Store) (h1 : NeutralEvolve s1 s2)
    (h2 : NeutralEvolve s2 s3) : NeutralEvolve s1 s3 := by
  refine ⟨h2.1.trans h1.1, h2.2.1.trans h1.2.1, fun p => ?_⟩
  obtain ⟨f2, t2, i2⟩ := h2.2.2 p
  obtain ⟨f1, t1, i1⟩ := h1.2.2 p
  exact ⟨f2.trans f1, t2.trans t1, i2.trans i1⟩

theorem neutralEvolve_find (s s' : Store) (h : NeutralEvolve s s') (t i : Key) :
    s'.find t i = s.find t i := by
  rw [find_def, find_def, h.1]

theorem neutralEvolve_gc (s s' : Store) (h : NeutralEvolve s s')
    (hgc : GraphConsistent s) : GraphConsistent s' := by
  intro t i p hp
  rw [neutralEvolve_find s s' h] at hp
  have hold := hgc t i p hp
  obtain ⟨_, ht, hi⟩ := h.2.2 p
  exact ⟨by rw [h.2.1]; exact hold.1, ht.trans hold.2.1, hi.trans hold.2.2⟩

theorem neutralEvolve_step (s s' : Store) (h : NeutralEvolve s s') : StoreStep s s' :=
  ⟨Nat.le_of_eq h.2.1.symm, fun p _ => ⟨(h.2.2 p).2.1, (h.2.2 p).2.2⟩⟩

theorem mapHeapAt_neutralEvolve (s : Store) (mp : Nat) (f : Model → Model)
    (hf : ∀ mm, (f mm).fields = mm.fields ∧ (f mm).type = mm.type ∧ (f mm).id = mm.id) :
    NeutralEvolve s (mapHeapAt s mp f) :=
  ⟨rfl, (mapHeapAt_neutral s mp f hf).2.1, (mapHeapAt_neutral s mp f hf).2.2.1⟩

theorem relNamePush_neutral (s : Store) (mp : Nat) (k : String) :
    NeutralEvolve s (relNamePush s mp k) := by
  apply mapHeapAt_neutralEvolve
  intro mm
  by_cases h : k ∈ mm.relationshipsList <;> simp [h]

theorem relLinksStage_neutral (s : Store) (mp : Nat) (k : String) (o : Option JsonObj) :
    NeutralEvolve s (relLinksStage s mp k o) := by
  cases o with
  | none => exact neutralEvolve_refl s
  | some lo =>
      apply mapHeapAt_neutralEvolve
      intro mm
      exact ⟨rfl, rfl, rfl⟩

theorem relMetaStage_neutral (s : Store) (mp : Nat) (k : String) (o : Option JsonObj) :
    NeutralEvolve s (relMetaStage s mp k o) := by
  cases o with
  | none => exact neutralEvolve_refl s
  | some mo =>
      apply mapHeapAt_neutralEvolve
      intro mm
      exact ⟨rfl, rfl, rfl⟩

theorem addDepFrom_neutral (s : Store) (p mp : Nat) (k : String) :
    NeutralEvolve s (addDepFrom s p mp k) := by
  apply mapHeapAt_neutralEvolve
  intro mm
  rw [Model.addDependence]
  cases hfind : mm.dependents.find? (fun d =>
      d.id == (heapGet s mp).id && d.type == (heapGet s mp).type && d.relation == k) with
  | some _ => exact ⟨rfl, rfl, rfl⟩
  | none => exact ⟨rfl, rfl, rfl⟩

theorem addDeps_neutral : ∀ (ps : List Nat) (s : Store) (mp : Nat) (k : String),
    NeutralEvolve s (addDeps s mp ps k)
  | [], s, _, _ => neutralEvolve_refl s
  | p :: rest, s, mp, k =>
      neutralEvolve_trans _ _ _ (addDepFrom_neutral s p mp k)
        (addDeps_neutral rest (addDepFrom s p mp k) mp k)

/-- `mapHeapAt` with a function that may rewrite `fields` but keeps
`type` and `id`. -/
theorem mapHeapAt_fieldsWrite (s : Store) (mp : Nat) (f : Model → Model)
    (hf : ∀ mm, (f mm).type = mm.type ∧ (f mm).id = mm.id) :
    (mapHeapAt s mp f).graph = s.graph
    ∧ (mapHeapAt s mp f).heap.length = s.heap.length
    ∧ (∀ p, (heapGet (mapHeapAt s mp f) p).type = (heapGet s p).type
        ∧ (heapGet (mapHeapAt s mp f) p).id = (heapGet s p).id)
    ∧ (GraphConsistent s → GraphConsistent (mapHeapAt s mp f))
    ∧ StoreStep s (mapHeapAt s mp f)
    ∧ (∀ q, q ≠ mp → heapGet (mapHeapAt s mp f) q = heapGet s q) := by
  have hproj : ∀ p, (heapGet (mapHeapAt s mp f) p).type = (heapGet s p).type
      ∧ (heapGet (mapHeapAt s mp f) p).id = (heapGet s p).id := by
    intro p
    by_cases hp : p = mp
    · subst hp
      rcases heapGet_mapHeapAt_self_cases s p f with h | h
      · rw [h]
        exact hf (heapGet s p)
      · rw [h]
        exact ⟨rfl, rfl⟩
    · have hx : heapGet (mapHeapAt s mp f) p = heapGet s p :=
        heapGet_setHeapAt_ne s mp p (f (heapGet s mp)) hp
      rw [hx]
      exact ⟨rfl, rfl⟩
  have hlen : (mapHeapAt s mp f).heap.length = s.heap.length := setAt_length s.heap mp _
  refine ⟨rfl, hlen, hproj, ?_, ?_, ?_⟩
  · intro hgc t i p hfind
    have hold := hgc t i p hfind
    exact ⟨by rw [hlen]; exact hold.1, (hproj p).1.trans hold.2.1, (hproj p).2.trans hold.2.2⟩
  · exact ⟨Nat.le_of_eq hlen.symm, fun p _ => hproj p⟩
  · exact fun q hq => heapGet_setHeapAt_ne s mp q (f (heapGet s mp)) hq

theorem serializeRelEntry_data (heap : List Model) (m : Model) (k : String) :
    (serializeRelEntry heap m k).data = some (dataOf heap (lookupA m.fields k)) := by
  cases hv : lookupA m.fields k with
  | none => simp [serializeRelEntry, dataOf, hv, fieldTruthy]
  | some fv =>
      cases fv with
      | vnull => simp [serializeRelEntry, dataOf, hv, fieldTruthy, FieldValue.truthy]
      | vjson w =>
          by_cases ht : (FieldValue.vjson w).truthy <;>
            simp [serializeRelEntry, dataOf, hv, fieldTruthy, ht, relIdentifierOf]
      | vref p => simp [serializeRelEntry, dataOf, hv, fieldTruthy, FieldValue.truthy, relIdentifierOf]
      | vlist ps => simp [serializeRelEntry, dataOf, hv, fieldTruthy, FieldValue.truthy]

theorem shapeOfData_dataOf (heap : List Model) (v : Option FieldValue) :
    ShapeOfData (dataOf heap v) = RelShapeOf heap v := by
  cases v with
  | none => rfl
  | some fv =>
      cases fv with
      | vnull => rfl
      | vjson w =>
          by_cases ht : (FieldValue.vjson w).truthy <;>
            simp [dataOf, RelShapeOf, ShapeOfData, ht]
      | vref p => rfl
      | vlist ps => rfl

theorem relDataStage_spec (s : Store) (mp : Nat) (k : String) (d : RelData)
    (hmp : mp < s.heap.length) (hgc : GraphConsistent s) :
    GraphConsistent (relDataStage s mp k (some d))
    ∧ StoreStep s (relDataStage s mp k (some d))
    ∧ mp < (relDataStage s mp k (some d)).heap.length
    ∧ (∀ t i p, s.find t i = some p → (relDataStage s mp k (some d)).find t i = some p)
    ∧ (∀ k', k' ≠ k → lookupA (heapGet (relDataStage s mp k (some d)) mp).fields k'
        = lookupA (heapGet s mp).fields k')
    ∧ ShapeStable (relDataStage s mp k (some d))
        (lookupA (heapGet (relDataStage s mp k (some d)) mp).fields k)
        (ShapeOfData d) := by
  have hN := relNamePush_neutral s mp k
  have hgcN : GraphConsistent (relNamePush s mp k) := neutralEvolve_gc _ _ hN hgc
  have hmpN : mp < (relNamePush s mp k).heap.length := by
    rw [hN.2.1]
    exact hmp
  have hfieldsN : (heapGet (relNamePush s mp k) mp).fields = (heapGet s mp).fields :=
    (hN.2.2 mp).1
  cases d with
  | null =>
      have hEQ : relDataStage s mp k (some RelData.null)
          = mapHeapAt (relNamePush s mp k) mp
              (fun m => { m with fields := insertA m.fields k FieldValue.vnull }) := rfl
      rw [hEQ]
      obtain ⟨hg, hlen, hproj, hgcW, hstW, hne⟩ :=
        mapHeapAt_fieldsWrite (relNamePush s mp k) mp
          (fun m => { m with fields := insertA m.fields k FieldValue.vnull })
          (fun mm => ⟨rfl, rfl⟩)
      have hself : heapGet (mapHeapAt (relNamePush s mp k) mp
          (fun m => { m with fields := insertA m.fields k FieldValue.vnull })) mp
          = { heapGet (relNamePush s mp k) mp with
              fields := insertA (heapGet (relNamePush s mp k) mp).fields k FieldValue.vnull } :=
        heapGet_setHeapAt_self _ mp _ hmpN
      refine ⟨hgcW hgcN, storeStep_trans _ _ _ (neutralEvolve_step _ _ hN) hstW, ?_, ?_, ?_, ?_⟩
      · rw [hlen, hN.2.1]
        exact hmp
      · intro t i p hp
        rw [find_mapHeapAt, neutralEvolve_find _ _ hN]
        exact hp
      · intro k' hk'
        rw [hself]
        show lookupA (insertA (heapGet (relNamePush s mp k) mp).fields k FieldValue.vnull) k'
          = _
        rw [lookupA_insertA_ne _ k k' _ hk', hfieldsN]
      · rw [hself]
        show ShapeStable _ (lookupA (insertA (heapGet (relNamePush s mp k) mp).fields k FieldValue.vnull) k) _
        rw [lookupA_insertA_self]
        exact ⟨rfl, trivial⟩
  | single l =>
      obtain ⟨gcF, stF, frF, ltF, tyF, idF, fpF⟩ :=
        findOrInit_spec (relNamePush s mp k) l hgcN
      have hmpF : mp < ((relNamePush s mp k).findOrInit l).1.heap.length :=
        Nat.lt_of_lt_of_le hmpN stF.1
      have hfieldsF : (heapGet ((relNamePush s mp k).findOrInit l).1 mp).fields
          = (heapGet s mp).fields := by
        rw [frF mp hmpN, hfieldsN]
      obtain ⟨hg, hlen, hproj, hgcW, hstW, hne⟩ :=
        mapHeapAt_fieldsWrite ((relNamePush s mp k).findOrInit l).1 mp
          (fun m => { m with fields := insertA m.fields k (FieldValue.vref ((relNamePush s mp k).findOrInit l).2) })
          (fun mm => ⟨rfl, rfl⟩)
      have hself : heapGet (mapHeapAt ((relNamePush s mp k).findOrInit l).1 mp
          (fun m => { m with fields := insertA m.fields k (FieldValue.vref ((relNamePush s mp k).findOrInit l).2) })) mp
          = { heapGet ((relNamePush s mp k).findOrInit l).1 mp with
              fields := insertA (heapGet ((relNamePush s mp k).findOrInit l).1 mp).fields k (FieldValue.vref ((relNamePush s mp k).findOrInit l).2) } :=
        heapGet_setHeapAt_self _ mp _ hmpF
      have hAD := addDepFrom_neutral (mapHeapAt ((relNamePush s mp k).findOrInit l).1 mp
          (fun m => { m with fields := insertA m.fields k (FieldValue.vref ((relNamePush s mp k).findOrInit l).2) }))
          ((relNamePush s mp k).findOrInit l).2 mp k
      have hEQ : relDataStage s mp k (some (RelData.single l))
          = addDepFrom (mapHeapAt ((relNamePush s mp k).findOrInit l).1 mp
              (fun m => { m with fields := insertA m.fields k (FieldValue.vref ((relNamePush s mp k).findOrInit l).2) }))
              ((relNamePush s mp k).findOrInit l).2 mp k := rfl
      rw [hEQ]
      refine ⟨neutralEvolve_gc _ _ hAD (hgcW gcF), ?_, ?_, ?_, ?_, ?_⟩
      · exact storeStep_trans _ _ _ (neutralEvolve_step _ _ hN)
          (storeStep_trans _ _ _ stF
            (storeStep_trans _ _ _ hstW (neutralEvolve_step _ _ hAD)))
      · rw [hAD.2.1, hlen]
        exact hmpF
      · intro t i p hp
        rw [neutralEvolve_find _ _ hAD, find_mapHeapAt]
        exact fpF t i p (by rw [neutralEvolve_find _ _ hN]; exact hp)
      · intro k' hk'
        rw [(hAD.2.2 mp).1, hself]
        show lookupA (insertA (heapGet ((relNamePush s mp k).findOrInit l).1 mp).fields k _) k' = _
        rw [lookupA_insertA_ne _ k k' _ hk', hfieldsF]
      · rw [(hAD.2.2 mp).1, hself]
        show ShapeStable _ (lookupA (insertA (heapGet ((relNamePush s mp k).findOrInit l).1 mp).fields k (FieldValue.vref ((relNamePush s mp k).findOrInit l).2)) k) _
        rw [lookupA_insertA_self]
        have hstep2 : StoreStep ((relNamePush s mp k).findOrInit l).1 (addDepFrom _ _ mp k) :=
          storeStep_trans _ _ _ hstW (neutralEvolve_step _ _ hAD)
        apply shapeStable_mono _ _ _ _ hstep2
        refine ⟨?_, ltF⟩
        show RelShape.one _ = RelShape.one l
        rw [show (heapGetM ((relNamePush s mp k).findOrInit l).1.heap ((relNamePush s mp k).findOrInit l).2).type = l.type from tyF,
          show (heapGetM ((relNamePush s mp k).findOrInit l).1.heap ((relNamePush s mp k).findOrInit l).2).id = l.id from idF]
  | many ls =>
      obtain ⟨gcF, stF, frF, hvalF, hmapF, fpF⟩ :=
        mapFindOrInit_spec ls (relNamePush s mp k) hgcN
      have hmpF : mp < (mapFindOrInit (relNamePush s mp k) ls).1.heap.length :=
        Nat.lt_of_lt_of_le hmpN stF.1
      have hfieldsF : (heapGet (mapFindOrInit (relNamePush s mp k) ls).1 mp).fields
          = (heapGet s mp).fields := by
        rw [frF mp hmpN, hfieldsN]
      obtain ⟨hg, hlen, hproj, hgcW, hstW, hne⟩ :=
        mapHeapAt_fieldsWrite (mapFindOrInit (relNamePush s mp k) ls).1 mp
          (fun m => { m with fields := insertA m.fields k (FieldValue.vlist (mapFindOrInit (relNamePush s mp k) ls).2) })
          (fun mm => ⟨rfl, rfl⟩)
      have hself : heapGet (mapHeapAt (mapFindOrInit (relNamePush s mp k) ls).1 mp
          (fun m => { m with fields := insertA m.fields k (FieldValue.vlist (mapFindOrInit (relNamePush s mp k) ls).2) })) mp
          = { heapGet (mapFindOrInit (relNamePush s mp k) ls).1 mp with
              fields := insertA (heapGet (mapFindOrInit (relNamePush s mp k) ls).1 mp).fields k (FieldValue.vlist (mapFindOrInit (relNamePush s mp k) ls).2) } :=
        heapGet_setHeapAt_self _ mp _ hmpF
      have hAD := addDeps_neutral (mapFindOrInit (relNamePush s mp k) ls).2
          (mapHeapAt (mapFindOrInit (relNamePush s mp k) ls).1 mp
            (fun m => { m with fields := insertA m.fields k (FieldValue.vlist (mapFindOrInit (relNamePush s mp k) ls).2) }))
          mp k
      have hEQ : relDataStage s mp k (some (RelData.many ls))
          = addDeps (mapHeapAt (mapFindOrInit (relNamePush s mp k) ls).1 mp
              (fun m => { m with fields := insertA m.fields k (FieldValue.vlist (mapFindOrInit (relNamePush s mp k) ls).2) }))
              mp (mapFindOrInit (relNamePush s mp k) ls).2 k := rfl
      rw [hEQ]
      refine ⟨neutralEvolve_gc _ _ hAD (hgcW gcF), ?_, ?_, ?_, ?_, ?_⟩
      · exact storeStep_trans _ _ _ (neutralEvolve_step _ _ hN)
          (storeStep_trans _ _ _ stF
            (storeStep_trans _ _ _ hstW (neutralEvolve_step _ _ hAD)))
      · rw [hAD.2.1, hlen]
        exact hmpF
      · intro t i p hp
        rw [neutralEvolve_find _ _ hAD, find_mapHeapAt]
        exact fpF t i p (by rw [neutralEvolve_find _ _ hN]; exact hp)
      · intro k' hk'
        rw [(hAD.2.2 mp).1, hself]
        show lookupA (insertA (heapGet (mapFindOrInit (relNamePush s mp k) ls).1 mp).fields k _) k' = _
        rw [lookupA_insertA_ne _ k k' _ hk', hfieldsF]
      · rw [(hAD.2.2 mp).1, hself]
        show ShapeStable _ (lookupA (insertA (heapGet (mapFindOrInit (relNamePush s mp k) ls).1 mp).fields k (FieldValue.vlist (mapFindOrInit (relNamePush s mp k) ls).2)) k) _
        rw [lookupA_insertA_self]
        have hstep2 : StoreStep (mapFindOrInit (relNamePush s mp k) ls).1 (addDeps _ mp _ k) :=
          storeStep_trans _ _ _ hstW (neutralEvolve_step _ _ hAD)
        apply shapeStable_mono _ _ _ _ hstep2
        refine ⟨?_, hvalF⟩
        show RelShape.many _ = RelShape.many ls
        exact congrArg RelShape.many hmapF

theorem syncOneRel_spec (s : Store) (mp : Nat) (k : String) (e : RelEntry)
    (d : RelData) (hd : e.data = some d) (hmp : mp < s.heap.length)
    (hgc : GraphConsistent s) :
    GraphConsistent (syncOneRel s mp k e)
    ∧ StoreStep s (syncOneRel s mp k e)
    ∧ mp < (syncOneRel s mp k e).heap.length
    ∧ (∀ t i p, s.find t i = some p → (syncOneRel s mp k e).find t i = some p)
    ∧ (∀ k', k' ≠ k → lookupA (heapGet (syncOneRel s mp k e) mp).fields k'
        = lookupA (heapGet s mp).fields k')
    ∧ ShapeStable (syncOneRel s mp k e)
        (lookupA (heapGet (syncOneRel s mp k e) mp).fields k) (ShapeOfData d) := by
  obtain ⟨hgcD, hstD, hmpD, hfpD, hneD, hshD⟩ := relDataStage_spec s mp k d hmp hgc
  have hEQ : syncOneRel s mp k e
      = relMetaStage (relLinksStage (relDataStage s mp k (some d)) mp k e.links) mp k e.meta := by
    rw [syncOneRel, hd]
  rw [hEQ]
  have hn := neutralEvolve_trans _ _ _
    (relLinksStage_neutral (relDataStage s mp k (some d)) mp k e.links)
    (relMetaStage_neutral (relLinksStage (relDataStage s mp k (some d)) mp k e.links) mp k e.meta)
  refine ⟨neutralEvolve_gc _ _ hn hgcD,
    storeStep_trans _ _ _ hstD (neutralEvolve_step _ _ hn), ?_, ?_, ?_, ?_⟩
  · rw [hn.2.1]
    exact hmpD
  · intro t i p hp
    rw [neutralEvolve_find _ _ hn]
    exact hfpD t i p hp
  · intro k' hk'
    rw [(hn.2.2 mp).1]
    exact hneD k' hk'
  · rw [(hn.2.2 mp).1]
    exact shapeStable_mono _ _ _ _ (neutralEvolve_step _ _ hn) hshD

theorem syncRels_spec : ∀ (entries : List (String × RelEntry)) (s : Store) (mp : Nat),
    (∀ kv ∈ entries, kv.2.data.isSome = true) →
    (entries.map Prod.fst).Nodup →
    mp < s.heap.length → GraphConsistent s →
    GraphConsistent (syncRelationships s mp entries)
    ∧ StoreStep s (syncRelationships s mp entries)
    ∧ mp < (syncRelationships s mp entries).heap.length
    ∧ (∀ t i p, s.find t i = some p → (syncRelationships s mp entries).find t i = some p)
    ∧ (∀ k', k' ∉ entries.map Prod.fst →
        lookupA (heapGet (syncRelationships s mp entries) mp).fields k'
          = lookupA (heapGet s mp).fields k')
    ∧ (∀ kv ∈ entries, ∀ d, kv.2.data = some d →
        ShapeStable (syncRelationships s mp entries)
          (lookupA (heapGet (syncRelationships s mp entries) mp).fields kv.1)
          (ShapeOfData d))
  | [], s, mp, _, _, hmp, hgc => by
      refine ⟨hgc, storeStep_refl s, hmp, fun _ _ _ hh => hh, fun _ _ => rfl, ?_⟩
      intro kv hkv
      cases hkv
  | (k0, e0) :: rest, s, mp, hdata, hndk, hmp, hgc => by
      have hd0 : ∃ d, e0.data = some d := by
        have := hdata (k0, e0) (List.mem_cons_self _ _)
        cases he : e0.data with
        | none => rw [he] at this; cases this
        | some d => exact ⟨d, rfl⟩
      obtain ⟨d0, hd0⟩ := hd0
      have hnd0 : k0 ∉ rest.map Prod.fst ∧ (rest.map Prod.fst).Nodup := by
        have hcons : (((k0, e0) :: rest).map Prod.fst) = k0 :: rest.map Prod.fst := rfl
        rw [hcons] at hndk
        exact List.nodup_cons.mp hndk
      obtain ⟨gc1, st1, mp1, fp1, ne1, sh1⟩ := syncOneRel_spec s mp k0 e0 d0 hd0 hmp hgc
      obtain ⟨gc2, st2, mp2, fp2, ne2, sh2⟩ :=
        syncRels_spec rest (syncOneRel s mp k0 e0) mp
          (fun kv hkv => hdata kv (List.mem_cons_of_mem _ hkv)) hnd0.2 mp1 gc1
      have hstep : syncRelationships s mp ((k0, e0) :: rest)
          = syncRelationships (syncOneRel s mp k0 e0) mp rest := rfl
      rw [hstep]
      refine ⟨gc2, storeStep_trans _ _ _ st1 st2, mp2, ?_, ?_, ?_⟩
      · intro t i p hp
        exact fp2 t i p (fp1 t i p hp)
      · intro k' hk'
        have hk0 : k' ≠ k0 := by
          intro he
          exact hk' (by rw [he]; exact List.mem_cons_self _ _)
        have hkrest : k' ∉ rest.map Prod.fst := by
          intro hmem
          exact hk' (List.mem_cons_of_mem _ hmem)
        rw [ne2 k' hkrest, ne1 k' hk0]
      · intro kv hkv d hd
        rcases List.mem_cons.mp hkv with he | hmem
        · subst he
          have hdd : d = d0 := by
            rw [hd0] at hd
            injection hd with hd
            exact hd.symm
          subst hdd
          rw [ne2 k0 hnd0.1]
          exact shapeStable_mono _ _ _ _ st2 sh1
        · exact sh2 kv hmem d hd

theorem keys_map_pair {α : Type} (l : List String) (f : String → α) :
    (l.map (fun k => (k, f k))).map Prod.fst = l := by
  induction l with
  | nil => rfl
  | cons a t ih => simpa using ih

theorem recLinksStage_neutral (s : Store) (mp : Nat) (o : Option JsonObj) :
    NeutralEvolve s (recLinksStage s mp o) := by
  cases o with
  | none => exact neutralEvolve_refl s
  | some lo =>
      apply mapHeapAt_neutralEvolve
      intro mm
      exact ⟨rfl, rfl, rfl⟩

theorem recMetaStage_neutral (s : Store) (mp : Nat) (o : Option JsonObj) :
    NeutralEvolve s (recMetaStage s mp o) := by
  cases o with
  | none => exact neutralEvolve_refl s
  | some mo =>
      apply mapHeapAt_neutralEvolve
      intro mm
      exact ⟨rfl, rfl, rfl⟩

theorem gc_freshBase_empty (t i : Key) : GraphConsistent (freshBase Store.empty t i) := by
  intro t' i' p hp
  rw [freshBase_find] at hp
  by_cases hc : t' = t ∧ i' = i
  · rw [if_pos hc] at hp
    injection hp with hp
    subst hp
    refine ⟨Nat.lt_succ_self 0, ?_, ?_⟩
    · rw [freshBase_heapGet_self Store.empty t i, hc.1]
      rfl
    · rw [freshBase_heapGet_self Store.empty t i, hc.2]
      rfl
  · rw [if_neg hc] at hp
    exact Option.noConfusion hp

theorem gc_syncAttributes (pairs : List (String × Option FieldValue)) (s : Store)
    (mp : Nat) (hmp : mp < s.heap.length)
    (hndf : (keysOf (heapGet s mp).fields).Nodup)
    (hndp : (pairs.map Prod.fst).Nodup) (hgc : GraphConsistent s) :
    GraphConsistent (syncAttributes s mp pairs) := by
  obtain ⟨c1, c2, c3, c4, _, _, _⟩ := syncAttributes_spec pairs s mp hmp hndf hndp
  intro t i p hp
  have hfind : (syncAttributes s mp pairs).find t i = s.find t i := by
    rw [find_def, find_def, syncAttributes_graph]
  rw [hfind] at hp
  have hold := hgc t i p hp
  refine ⟨by rw [c1]; exact hold.1, ?_, ?_⟩
  · by_cases hq : p = mp
    · subst hq
      rw [c3]
      exact hold.2.1
    · rw [c2 p hq]
      exact hold.2.1
  · by_cases hq : p = mp
    · subst hq
      rw [c4]
      exact hold.2.2
    · rw [c2 p hq]
      exact hold.2.2

/-- C9: syncing `model.serialize()` into a fresh store and looking the
model up again yields a model whose attributes are equal by value to
the original's and whose relationship slots reference models with the
same type+id identifiers (`RelShapeOf`) as the original's. -/
theorem serialize_round_trip (s : Store) (mp : Nat) (i0 : String)
    (hid : (heapGet s mp).id = some i0)
    (hnda : (heapGet s mp).attributesList.Nodup)
    (hndr : (heapGet s mp).relationshipsList.Nodup)
    (hdisj : ∀ k ∈ (heapGet s mp).attributesList, k ∉ (heapGet s mp).relationshipsList) :
    (roundTripStore s mp).find (heapGet s mp).type (heapGet s mp).id = some 0
    ∧ (∀ k ∈ (heapGet s mp).attributesList,
        lookupA (heapGet (roundTripStore s mp) 0).fields k
          = lookupA (heapGet s mp).fields k)
    ∧ (∀ k ∈ (heapGet s mp).relationshipsList,
        RelShapeOf (roundTripStore s mp).heap
            (lookupA (heapGet (roundTripStore s mp) 0).fields k)
          = RelShapeOf s.heap (lookupA (heapGet s mp).fields k)) := by
  have hRT : roundTripStore s mp
      = syncRelationships
          (recMetaStage
            (recLinksStage
              (syncAttributes
                (mapHeapAt (freshBase Store.empty (heapGet s mp).type (heapGet s mp).id) 0
                  (fun m => { m with placeHolder := false }))
                0
                ((heapGet s mp).attributesList.map (fun k => (k, lookupA (heapGet s mp).fields k))))
              0 (Model.serialize s.heap (heapGet s mp) {}).links)
            0 (Model.serialize s.heap (heapGet s mp) {}).meta)
          0
          ((heapGet s mp).relationshipsList.map (fun k => (k, serializeRelEntry s.heap (heapGet s mp) k))) := rfl
  rw [hRT]
  set A := freshBase Store.empty (heapGet s mp).type (heapGet s mp).id with hAdef
  set B := mapHeapAt A 0 (fun m => { m with placeHolder := false }) with hBdef
  set C := syncAttributes B 0
    ((heapGet s mp).attributesList.map (fun k => (k, lookupA (heapGet s mp).fields k))) with hCdef
  set D := recLinksStage C 0 (Model.serialize s.heap (heapGet s mp) {}).links with hDdef
  set E := recMetaStage D 0 (Model.serialize s.heap (heapGet s mp) {}).meta with hEdef
  have hgcA : GraphConsistent A := gc_freshBase_empty _ _
  have hfindA : A.find (heapGet s mp).type (heapGet s mp).id = some 0 := by
    rw [hAdef, freshBase_find, if_pos ⟨rfl, rfl⟩]
    rfl
  have hgetA : heapGet A 0 = Model.new (heapGet s mp).type (heapGet s mp).id :=
    freshBase_heapGet_self Store.empty _ _
  have hlenA : A.heap.length = 1 := freshBase_length Store.empty _ _
  have hNB : NeutralEvolve A B :=
    mapHeapAt_neutralEvolve A 0 _ (fun mm => ⟨rfl, rfl, rfl⟩)
  have hgcB : GraphConsistent B := neutralEvolve_gc _ _ hNB hgcA
  have hmpB : (0 : Nat) < B.heap.length := by
    rw [hNB.2.1, hlenA]
    exact Nat.zero_lt_one
  have hfieldsB : (heapGet B 0).fields = [] := by
    rw [(hNB.2.2 0).1, hgetA]
    rfl
  have hfindB : B.find (heapGet s mp).type (heapGet s mp).id = some 0 := by
    rw [neutralEvolve_find _ _ hNB]
    exact hfindA
  obtain ⟨c1, c2, c3, c4, c5, c6, c7⟩ :=
    syncAttributes_spec
      ((heapGet s mp).attributesList.map (fun k => (k, lookupA (heapGet s mp).fields k)))
      B 0 hmpB (by rw [hfieldsB]; exact List.nodup_nil)
      (by rw [keys_map_pair]; exact hnda)
  have hgcC : GraphConsistent C :=
    gc_syncAttributes _ B 0 hmpB (by rw [hfieldsB]; exact List.nodup_nil)
      (by rw [keys_map_pair]; exact hnda) hgcB
  have hmpC : (0 : Nat) < C.heap.length := by
    rw [hCdef, c1]
    exact hmpB
  have hfindC : C.find (heapGet s mp).type (heapGet s mp).id = some 0 := by
    rw [hCdef, find_def, syncAttributes_graph, ← find_def]
    exact hfindB
  have hNE : NeutralEvolve C E := by
    rw [hEdef, hDdef]
    exact neutralEvolve_trans _ _ _
      (recLinksStage_neutral C 0 (Model.serialize s.heap (heapGet s mp) {}).links)
      (recMetaStage_neutral _ 0 (Model.serialize s.heap (heapGet s mp) {}).meta)
  have hgcE : GraphConsistent E := neutralEvolve_gc _ _ hNE hgcC
  have hmpE : (0 : Nat) < E.heap.length := by
    rw [hNE.2.1]
    exact hmpC
  have hfindE : E.find (heapGet s mp).type (heapGet s mp).id = some 0 := by
    rw [neutralEvolve_find _ _ hNE]
    exact hfindC
  have hfieldsE : (heapGet E 0).fields = (heapGet C 0).fields := (hNE.2.2 0).1
  obtain ⟨r1, r2, r3, r4, r5, r6⟩ :=
    syncRels_spec
      ((heapGet s mp).relationshipsList.map (fun k => (k, serializeRelEntry s.heap (heapGet s mp) k)))
      E 0
      (by
        intro kv hkv
        obtain ⟨k, hk, hkv2⟩ := List.mem_map.mp hkv
        rw [← hkv2]
        show (serializeRelEntry s.heap (heapGet s mp) k).data.isSome = true
        rw [serializeRelEntry_data]
        rfl)
      (by rw [keys_map_pair]; exact hndr)
      hmpE hgcE
  refine ⟨?_, ?_, ?_⟩
  · exact r4 _ _ 0 hfindE
  · intro k hk
    have hknr : k ∉ ((heapGet s mp).relationshipsList.map (fun x => (x, serializeRelEntry s.heap (heapGet s mp) x))).map Prod.fst := by
      rw [keys_map_pair]
      exact hdisj k hk
    rw [r5 k hknr, hfieldsE]
    exact c7 k (lookupA (heapGet s mp).fields k)
      (List.mem_map_of_mem (fun x => (x, lookupA (heapGet s mp).fields x)) hk)
  · intro k hk
    have hmem : (k, serializeRelEntry s.heap (heapGet s mp) k)
        ∈ (heapGet s mp).relationshipsList.map (fun x => (x, serializeRelEntry s.heap (heapGet s mp) x)) :=
      List.mem_map_of_mem (fun x => (x, serializeRelEntry s.heap (heapGet s mp) x)) hk
    have hshape := r6 (k, serializeRelEntry s.heap (heapGet s mp) k) hmem
      (dataOf s.heap (lookupA (heapGet s mp).fields k))
      (serializeRelEntry_data s.heap (heapGet s mp) k)
    rw [hshape.1, shapeOfData_dataOf]

theorem serialize_round_trip_witness :
    (roundTripStore c9Store 2).find (some "post") (some "7") = some 0
    ∧ lookupA (heapGet (roundTripStore c9Store 2) 0).fields "title"
      = some (FieldValue.vjson (JsonVal.jstr "Cool"))
    ∧ RelShapeOf (roundTripStore c9Store 2).heap
        (lookupA (heapGet (roundTripStore c9Store 2) 0).fields "author")
      = RelShape.one { type := some "user", id := some "1" }
    ∧ RelShapeOf (roundTripStore c9Store 2).heap
        (lookupA (heapGet (roundTripStore c9Store 2) 0).fields "tags")
      = RelShape.many [{ type := some "tag", id := some "5" }, { type := some "user", id := some "1" }]
    ∧ RelShapeOf (roundTripStore c9Store 2).heap
        (lookupA (heapGet (roundTripStore c9Store 2) 0).fields "cover")
      = RelShape.noref := by
  have h := serialize_round_trip c9Store 2 "7" (by decide) (by decide) (by decide) (by decide)
  refine ⟨h.1, ?_, ?_, ?_, ?_⟩
  · rw [h.2.1 "title" (by decide)]
    decide
  · rw [h.2.2 "author" (by decide)]
    decide
  · rw [h.2.2 "tags" (by decide)]
    decide
  · rw [h.2.2 "cover" (by decide)]
    decide
